import Mathlib

/-!
Verification development for the `cargo-near` ABI-extraction tool and the
`near-sdk` metadata support code.  The Rust sources are shallowly embedded:
TOML documents become an inductive `Toml` value, the manifest-editing
operations of `cargo-near/src/workspace/manifest.rs` become pure functions
returning `Except String _`, the macro-side type registry and
`metadata_struct` of `near-sdk-macros` become explicit state-passing
functions, and the serde behaviour of `near-sdk/src/metadata.rs` becomes a
pair of JSON encode/decode functions.

The file is organized as definitions first, then theorems.
-/

set_option autoImplicit false

/-- Shallow embedding of `toml::value::Value`.  The `Float` and `Datetime`
variants of the Rust type are not used by any code under verification and
are omitted; tables are association lists of string keys. -/
inductive Toml where
  | str : String → Toml
  | int : Int → Toml
  | boolean : Bool → Toml
  | arr : List Toml → Toml
  | table : List (String × Toml) → Toml

/-- A TOML table (`toml::value::Table`), as an association list. -/
abbrev TomlTable := List (String × Toml)

/-- First-match lookup in a table, the embedding of `Table::get`. -/
def tblLookup : TomlTable → String → Option Toml
  | [], _ => none
  | (k, v) :: rest, key => if k = key then some v else tblLookup rest key

/-- Insert/replace in a table, the embedding of `Table::insert` and of
in-place mutation through `get_mut`: the first binding of the key is
replaced, otherwise the binding is appended. -/
def tblInsert : TomlTable → String → Toml → TomlTable
  | [], key, v => [(key, v)]
  | (k, w) :: rest, key, v =>
    if k = key then (k, v) :: rest else (k, w) :: tblInsert rest key v

/-- Remove a key from a table, the embedding of `Table::remove`. -/
def tblRemove : TomlTable → String → TomlTable
  | [], _ => []
  | (k, v) :: rest, key =>
    if k = key then tblRemove rest key else (k, v) :: tblRemove rest key

/-- Embedding of `Path::is_relative` for Unix-style path strings: a path is
relative iff it does not start with the separator `/`. -/
def isRelativePath (p : String) : Bool := p.data.head? != some '/'

/-- Embedding of `Path::join` for the uses in the sources, where the joined
component is always relative (`src/lib.rs`, `src/main.rs`, or a path the
caller just checked to be relative). -/
def joinPath (d p : String) : String := d ++ "/" ++ p

/-- Embedding of `toml::Value::as_str`. -/
def Toml.as_str : Toml → Option String
  | .str s => some s
  | _ => none

/-- Embedding of `crate_type_exists` (manifest.rs lines 321-323). -/
def crate_type_exists (crate_type : String) (crate_types : List Toml) : Bool :=
  crate_types.any fun v =>
    match v.as_str with
    | some s => s == crate_type
    | none => false

/-- Embedding of `Manifest::with_added_crate_type` together with
`get_crate_types_mut` (manifest.rs lines 116-135).  The `&mut self`
document is modelled as explicit state: the second component is the
document after the call; it is unchanged whenever an error is returned,
because `get_crate_types_mut` fails before any mutation happens. -/
def with_added_crate_type (crate_type : String) (doc : TomlTable) :
    Except String Unit × TomlTable :=
  match tblLookup doc "lib" with
  | none => (.error "lib section not found", doc)
  | some (.table lib) =>
    match tblLookup lib "crate-type" with
    | none => (.error "crate-type section not found", doc)
    | some (.arr a) =>
      if crate_type_exists crate_type a then (.ok (), doc)
      else
        (.ok (),
         tblInsert doc "lib"
           (.table (tblInsert lib "crate-type" (.arr (a ++ [.str crate_type])))))
    | some _ => (.error "crate-types should be an Array", doc)
  | some _ => (.error "crate-type section not found", doc)

/-- Modelled from the spec: the workspace driver code that applies the
manifest mutations and then writes the amended copy
(`Workspace::with_root_package_manifest` followed by `Manifest::write`;
the `Workspace` type itself is not under `src/`).  Per the spec, structural
errors "are fatal to the whole extraction — no partial manifests are ever
written", so written file contents exist only when the mutation succeeds. -/
def apply_edit_and_write (crate_type : String) (doc : TomlTable) :
    Option TomlTable :=
  match with_added_crate_type crate_type doc with
  | (.ok _, doc') => some doc'
  | (.error _, _) => none

/-- Embedding of the closure `to_absolute` in `rewrite_relative_paths`
(manifest.rs lines 191-206).  `absDir` stands for the canonicalized
directory of the manifest path. -/
def to_absolute (absDir : String) (value_id : String) : Toml → Except String Toml
  | .str s =>
    if isRelativePath s then .ok (.str (joinPath absDir s)) else .ok (.str s)
  | _ => .error (value_id ++ " should be a string")

/-- Embedding of the closure `rewrite_path` in `rewrite_relative_paths`
(manifest.rs lines 208-232).  `fs` is the set of paths, relative to the
process working directory, for which `Path::exists` returns true. -/
def rewrite_path (absDir : String) (fs : List String)
    (table_section dflt : String) : Toml → Except String Toml
  | .table t =>
    (match tblLookup t "path" with
     | some existing_path =>
       (match to_absolute absDir ("[" ++ table_section ++ "]/path") existing_path with
        | .ok p => .ok (.table (tblInsert t "path" p))
        | .error e => .error e)
     | none =>
       if fs.contains dflt then
         .ok (.table (tblInsert t "path" (.str (joinPath absDir dflt))))
       else
         .error ("No path specified, and the default `" ++ dflt ++ "` was not found"))
  | _ => .error ("'[" ++ table_section ++ "]' section should be a table")

/-- The resolved package name of a dependency entry: its `package` key when
present (and a string), otherwise the dependency key itself (manifest.rs
lines 259-263). -/
def resolved_package_name (name : String) (v : Toml) : String :=
  match v with
  | .table t =>
    match tblLookup t "package" with
    | some (.str s) => s
    | _ => name
  | _ => name

/-- Embedding of the per-dependency body of the loop in
`rewrite_relative_paths` (manifest.rs lines 258-272). -/
def rewrite_dep (absDir : String) (exclude : List String)
    (name : String) (v : Toml) : Except String Toml :=
  if exclude.contains (resolved_package_name name v) then .ok v
  else
    match v with
    | .table t =>
      (match tblLookup t "path" with
       | some dep_path =>
         (match to_absolute absDir ("dependency " ++ resolved_package_name name v) dep_path with
          | .ok p => .ok (.table (tblInsert t "path" p))
          | .error e => .error e)
       | none => .ok v)
    | _ => .ok v

/-- The dependency loop of `rewrite_relative_paths`, applied to every
binding of the `[dependencies]` table in order. -/
def rewrite_deps (absDir : String) (exclude : List String) :
    TomlTable → Except String TomlTable
  | [] => .ok []
  | (name, v) :: rest =>
    match rewrite_dep absDir exclude name v with
    | .error e => .error e
    | .ok v' =>
      match rewrite_deps absDir exclude rest with
      | .error e => .error e
      | .ok rest' => .ok ((name, v') :: rest')

/-- Error-propagating map, the embedding of a `for` loop whose body uses
`?` on each element. -/
def mapExcept {α β : Type} (f : α → Except String β) : List α → Except String (List β)
  | [] => .ok []
  | x :: xs =>
    match f x with
    | .error e => .error e
    | .ok y =>
      match mapExcept f xs with
      | .error e => .error e
      | .ok ys => .ok (y :: ys)

/-- The `[lib]` stage of `rewrite_relative_paths` (manifest.rs lines
234-237). -/
def stage_lib (absDir : String) (fs : List String) (doc : TomlTable) :
    Except String TomlTable :=
  match tblLookup doc "lib" with
  | some lib =>
    (match rewrite_path absDir fs "lib" "src/lib.rs" lib with
     | .ok lib' => .ok (tblInsert doc "lib" lib')
     | .error e => .error e)
  | none => .ok doc

/-- The `[[bin]]` stage of `rewrite_relative_paths` (manifest.rs lines
239-249). -/
def stage_bin (absDir : String) (fs : List String) (doc : TomlTable) :
    Except String TomlTable :=
  match tblLookup doc "bin" with
  | some (.arr bins) =>
    (match mapExcept (rewrite_path absDir fs "[bin]" "src/main.rs") bins with
     | .ok bins' => .ok (tblInsert doc "bin" (.arr bins'))
     | .error e => .error e)
  | some _ => .error "'[[bin]]' section should be a table array"
  | none => .ok doc

/-- The `[dependencies]` stage of `rewrite_relative_paths` (manifest.rs
lines 251-273). -/
def stage_deps (absDir : String) (exclude : List String) (doc : TomlTable) :
    Except String TomlTable :=
  match tblLookup doc "dependencies" with
  | some (.table deps) =>
    (match rewrite_deps absDir exclude deps with
     | .ok deps' => .ok (tblInsert doc "dependencies" (.table deps'))
     | .error e => .error e)
  | some _ => .error "dependencies should be a table"
  | none => .ok doc

/-- Embedding of `Manifest::rewrite_relative_paths` (manifest.rs lines
182-276), after the canonicalization of the manifest's own path: `absDir`
stands for the canonical absolute directory of the manifest, `fs` for the
set of existing files, `exclude` for the caller-supplied `exclude_deps`.
The three sections are rewritten in source order: `[lib]`, then `[[bin]]`,
then `[dependencies]`. -/
def rewrite_relative_paths (absDir : String) (fs : List String)
    (exclude : List String) (doc : TomlTable) : Except String TomlTable :=
  match stage_lib absDir fs doc with
  | .error e => .error e
  | .ok doc₁ =>
    match stage_bin absDir fs doc₁ with
    | .error e => .error e
    | .ok doc₂ => stage_deps absDir exclude doc₂

/-- A TOML value has an absolute `path` field, if it is a table carrying
one.  Used to state the already-absolute-manifest hypothesis of the
idempotence property. -/
def toml_path_absolute : Toml → Bool
  | .table t =>
    (match tblLookup t "path" with
     | some (.str s) => !(isRelativePath s)
     | some _ => false
     | none => true)
  | _ => true

/-- Every `[lib]` path, `[[bin]]` path and dependency `path` value of the
manifest document is already an absolute path. -/
def all_manifest_paths_absolute (doc : TomlTable) : Bool :=
  (match tblLookup doc "lib" with
   | some v => toml_path_absolute v
   | none => true) &&
  (match tblLookup doc "bin" with
   | some (.arr bins) => bins.all toml_path_absolute
   | some _ => true
   | none => true) &&
  (match tblLookup doc "dependencies" with
   | some (.table deps) => deps.all fun kv => toml_path_absolute kv.2
   | some _ => true
   | none => true)

/-- Relation between one dependency value before (`v`) and after (`v'`)
`rewrite_relative_paths`: a dependency whose resolved package name is in
the exclusion set is untouched; for a non-excluded path-valued dependency
the `path` field becomes absolute (a relative path is joined onto the
manifest's absolute directory, an absolute one is kept) while every other
field is unchanged; non-excluded dependencies without a `path` field are
untouched. -/
def dep_rewrite_spec (absDir : String) (exclude : List String)
    (name : String) (v v' : Toml) : Prop :=
  (exclude.contains (resolved_package_name name v) = true → v' = v) ∧
  (exclude.contains (resolved_package_name name v) = false →
    match v with
    | .table t =>
      (match tblLookup t "path" with
       | some p => ∃ s t', p = .str s ∧ v' = .table t' ∧
           tblLookup t' "path" =
             some (.str (if isRelativePath s then joinPath absDir s else s)) ∧
           isRelativePath (if isRelativePath s then joinPath absDir s else s) = false ∧
           ∀ k, k ≠ "path" → tblLookup t' k = tblLookup t k
       | none => v' = v)
    | _ => v' = v)

/-- Modelled from the spec: the driver-package manifest template
`templates/tools/generate-metadata/_Cargo.toml` is not under `src/`.  Per
the spec the template declares the driver package and a `[dependencies]`
table with a path dependency named `contract` ("fixed dependency on
`contract` (path/package-renamed to the target)"). -/
def driver_template : TomlTable :=
  [("package", .table [("name", .str "metadata-gen"), ("version", .str "0.1.0")]),
   ("dependencies", .table [("contract", .table [("path", .str "../..")])])]

/-- Embedding of `generate_package` (workspace/metadata.rs lines 12-50).
The returned table is the driver package's `Cargo.toml` contents written to
disk; `none` models the `expect` panics on a malformed template. -/
def generate_package (contract_package_name : String)
    (near_sdk_dependency : TomlTable) : Option TomlTable :=
  match tblLookup driver_template "dependencies" with
  | some (.table deps) =>
    match tblLookup deps "contract" with
    | some (.table contract) =>
      let contract' := tblInsert contract "package" (.str contract_package_name)
      let sdk :=
        tblRemove (tblRemove (tblRemove near_sdk_dependency "default-features")
          "features") "optional"
      let deps' :=
        tblInsert (tblInsert deps "contract" (.table contract')) "near-sdk" (.table sdk)
      some (tblInsert driver_template "dependencies" (.table deps'))
    | _ => none
  | _ => none

/-- The contract package name of a contract manifest, as extracted by
`Manifest::write` (manifest.rs lines 293-300). -/
def contract_package_name_of (doc : TomlTable) : Except String String :=
  match tblLookup doc "package" with
  | none => .error "package section not found"
  | some (.table pt) =>
    (match tblLookup pt "name" with
     | none => .error "[package] name field not found"
     | some (.str s) => .ok s
     | some _ => .error "[package] name should be a string")
  | some _ => .error "[package] name field not found"

/-- The `near-sdk` dependency table of a contract manifest, as extracted by
`Manifest::write` (manifest.rs lines 302-309). -/
def near_sdk_dependency_of (doc : TomlTable) : Except String TomlTable :=
  match tblLookup doc "dependencies" with
  | none => .error "[dependencies] section not found"
  | some (.table dt) =>
    (match tblLookup dt "near-sdk" with
     | none => .error "near-sdk dependency not found"
     | some (.table st) => .ok st
     | some _ => .error "near-sdk dependency should be a table")
  | some _ => .error "near-sdk dependency not found"

/-- The driver-package manifest synthesized by `Manifest::write`
(manifest.rs lines 284-312): name and `near-sdk` dependency extraction
followed by `generate_package`. -/
def write_driver_manifest (doc : TomlTable) : Except String TomlTable :=
  match contract_package_name_of doc with
  | .error e => .error e
  | .ok contract_package_name =>
    match near_sdk_dependency_of doc with
    | .error e => .error e
    | .ok near_sdk =>
      match generate_package contract_package_name near_sdk with
      | some out => .ok out
      | none => .error "malformed driver template"

/-- Number of occurrences of the string value `ct` in a crate-type array
(used to state that no duplicate is ever inserted). -/
def count_str (ct : String) (l : List Toml) : Nat :=
  (l.filter fun v =>
    match Toml.as_str v with
    | some s => s == ct
    | none => false).length

/-- The `lib.crate-type` array of a manifest document, when present. -/
def crate_types_of (doc : TomlTable) : Option (List Toml) :=
  match tblLookup doc "lib" with
  | some (.table lib) =>
    match tblLookup lib "crate-type" with
    | some (.arr a) => some a
    | _ => none
  | _ => none

/-- Concrete manifest document used to witness the `with_added_crate_type`
theorems: a `[lib]` section whose `crate-type` array holds `cdylib`. -/
def docLib : TomlTable :=
  [("package", .table [("name", .str "adder")]),
   ("lib", .table [("crate-type", .arr [.str "cdylib"])])]

/-- Concrete manifest document with no `[lib]` section, used to witness the
missing-section error behaviour. -/
def docNoLib : TomlTable :=
  [("package", .table [("name", .str "adder")])]

/-- Concrete already-absolute manifest used to witness the idempotence of
`rewrite_relative_paths`. -/
def docAbs : TomlTable :=
  [("lib", .table [("path", .str "/c/src/lib.rs")]),
   ("bin", .arr [.table [("path", .str "/c/src/main.rs")]]),
   ("dependencies", .table
     [("near-sdk", .table [("path", .str "/sdk")]),
      ("serde", .str "1.0")])]

/-- Dependency table with a relative path dependency, an excluded (by
resolved package name `skipme`) dependency and a version-only dependency,
used to witness the dependency frame property. -/
def depsIn : TomlTable :=
  [("near-sdk", .table [("path", .str "sdk/near-sdk")]),
   ("alias", .table [("package", .str "skipme"), ("path", .str "rel")]),
   ("serde", .str "1.0")]

/-- Concrete manifest holding `depsIn` as its `[dependencies]` table. -/
def docDeps : TomlTable := [("dependencies", .table depsIn)]

/-- The document produced by `rewrite_relative_paths` on `docDeps` with
manifest directory `/w` and exclusion set `[skipme]`. -/
def docDepsOut : TomlTable :=
  [("dependencies", .table
     [("near-sdk", .table [("path", .str "/w/sdk/near-sdk")]),
      ("alias", .table [("package", .str "skipme"), ("path", .str "rel")]),
      ("serde", .str "1.0")])]

/-- Concrete manifest whose `[lib]` section and single `[[bin]]` entry have
no `path` key, used to witness the default-path behaviour. -/
def docNoPaths : TomlTable :=
  [("lib", .table [("name", .str "adder")]),
   ("bin", .arr [.table [("name", .str "cli")]])]

/-- The document produced by `rewrite_relative_paths` on `docNoPaths` with
manifest directory `/w` when both default files exist. -/
def docNoPathsOut : TomlTable :=
  [("lib", .table [("name", .str "adder"), ("path", .str "/w/src/lib.rs")]),
   ("bin", .arr [.table [("name", .str "cli"), ("path", .str "/w/src/main.rs")]])]

/-- Concrete `near-sdk` dependency specification carrying version and
feature-selection keys, used to witness the driver-manifest generation. -/
def sdkDep : TomlTable :=
  [("version", .str "4.0.0"), ("default-features", .boolean false),
   ("features", .arr [.str "abi"]), ("optional", .boolean false)]

/-- Concrete contract manifest (package `adder` depending on `near-sdk`)
used to witness the driver-manifest generation. -/
def docContract : TomlTable :=
  [("package", .table [("name", .str "adder")]),
   ("dependencies", .table [("near-sdk", .table sdkDep)])]

/-- Structural surface types registered by the macro-side metadata pass: a
small syntax standing in for `syn::Type` values, compared structurally. -/
inductive Ty where
  | u32 : Ty
  | u64 : Ty
  | named : String → Ty
  | pair : Ty → Ty → Ty
  | result : Ty → Ty → Ty
  | vec : Ty → Ty
  deriving DecidableEq

/-- Modelled from the spec: the `TypeRegistry` implementation is not under
`src/` (only its caller `metadata_struct` is).  Per the spec, "two
structurally identical types registered during one registry's lifetime
receive the same id; ids are assigned in first-encounter order starting at
0".  The state is the list of distinct registered types in first-encounter
order; a type's id is its index in that list. -/
structure TypeRegistry where
  types : List Ty

/-- Index of the first structural occurrence of a type in a list. -/
def regIndex : List Ty → Ty → Option Nat
  | [], _ => none
  | x :: xs, t =>
    if x = t then some 0 else
      match regIndex xs t with
      | some i => some (i + 1)
      | none => none

/-- `TypeRegistry::register_type`: return the id of an already-registered
structurally identical type, otherwise assign the next id. -/
def TypeRegistry.register_type (r : TypeRegistry) (t : Ty) : Nat × TypeRegistry :=
  match regIndex r.types t with
  | some i => (i, r)
  | none => (r.types.length, ⟨r.types ++ [t]⟩)

/-- A fresh registry, as at the start of one generation pass. -/
def emptyRegistry : TypeRegistry := ⟨[]⟩

/-- Run a sequence of `register_type` calls, collecting the returned ids. -/
def runRegister (r : TypeRegistry) : List Ty → List Nat × TypeRegistry
  | [] => ([], r)
  | t :: ts =>
    let p := r.register_type t
    let q := runRegister p.2 ts
    (p.1 :: q.1, q.2)

/-- Insert a type at the end unless a structurally identical one is already
present (first-encounter deduplication step). -/
def insFirst (acc : List Ty) (t : Ty) : List Ty :=
  if t ∈ acc then acc else acc ++ [t]

/-- The distinct types of a sequence in first-encounter order. -/
def dedupFirst (ts : List Ty) : List Ty := ts.foldl insFirst []

/-- Serialization tag of a parameter or result
(`serializer_ty.to_abi_serializer_type()`). -/
inductive SerializerType where
  | json : SerializerType
  | borsh : SerializerType
  deriving DecidableEq

/-- `BindgenArgType` of near-sdk-macros: how a method parameter is bound. -/
inductive BindgenArgType where
  | Regular : BindgenArgType
  | CallbackArg : BindgenArgType
  | CallbackArgVec : BindgenArgType
  deriving DecidableEq

/-- `MethodType` of near-sdk-macros. -/
inductive MethodType where
  | Regular : MethodType
  | View : MethodType
  | Init : MethodType
  | InitIgnoreState : MethodType
  deriving DecidableEq

/-- One argument of `AttrSigInfo::args`: its type, binding kind and
serializer. -/
structure ArgInfo where
  ty : Ty
  bindgen_ty : BindgenArgType
  serializer_ty : SerializerType
  deriving DecidableEq

/-- The part of `ImplItemMethodInfo`/`AttrSigInfo` that
`metadata_struct` reads: method name, method type, arguments in
declaration order, return type and result serializer. -/
structure MethodInfo where
  ident : String
  method_type : MethodType
  args : List ArgInfo
  returns : Option Ty
  result_serializer : SerializerType
  deriving DecidableEq

/-- Modelled from the spec: `AttrSigInfo::input_args` is not under `src/`;
it yields the method's regular input parameters in declaration order. -/
def MethodInfo.input_args (m : MethodInfo) : List ArgInfo :=
  m.args.filter fun a => a.bindgen_ty == BindgenArgType.Regular

/-- The callback-tagged arguments of a method (`BindgenArgType::CallbackArg`
filter in `metadata_struct`). -/
def callback_args (m : MethodInfo) : List ArgInfo :=
  m.args.filter fun a => a.bindgen_ty == BindgenArgType.CallbackArg

/-- The callback-vector-tagged arguments of a method
(`BindgenArgType::CallbackArgVec` filter in `metadata_struct`). -/
def callback_vec_args (m : MethodInfo) : List ArgInfo :=
  m.args.filter fun a => a.bindgen_ty == BindgenArgType.CallbackArgVec

/-- Embedding of `near_sdk::AbiParameter` as constructed by
`metadata_struct`: a registry type id plus its serialization tag. -/
structure AbiParameter where
  type_id : Nat
  serialization_type : SerializerType
  deriving DecidableEq

/-- Embedding of the `near_sdk::AbiFunction` record constructed by
`metadata_struct`. -/
structure AbiFunction where
  name : String
  is_view : Bool
  is_init : Bool
  params : List AbiParameter
  callbacks : List AbiParameter
  callbacks_vec : Option AbiParameter
  result : Option AbiParameter
  deriving DecidableEq

/-- Registration of a list of arguments in declaration order, as done by
the `params` and `callbacks` loops of `metadata_struct`. -/
def registerParams (r : TypeRegistry) :
    List ArgInfo → List AbiParameter × TypeRegistry
  | [] => ([], r)
  | a :: rest =>
    let p := r.register_type a.ty
    let q := registerParams p.2 rest
    (⟨p.1, a.serializer_ty⟩ :: q.1, q.2)

/-- Embedding of `ImplItemMethodInfo::metadata_struct`
(metadata_generator.rs lines 38-139): registers the regular parameters,
then the callback parameters; rejects a second callback-vector parameter
with a compile error; otherwise registers the callback-vector parameter
(the `last()` of the filtered list) and the result type, and produces the
`AbiFunction` record.  The registry is threaded as explicit state (the
Rust code takes it `&mut`). -/
def metadata_struct (m : MethodInfo) (r : TypeRegistry) :
    Except String AbiFunction × TypeRegistry :=
  let is_view := m.method_type == MethodType.View
  let is_init :=
    m.method_type == MethodType.Init || m.method_type == MethodType.InitIgnoreState
  let pp := registerParams r m.input_args
  let cc := registerParams pp.2 (callback_args m)
  if (callback_vec_args m).length > 1 then
    (.error "A function can only have one #[callback_vec] parameter.", cc.2)
  else
    let vecRes : Option AbiParameter × TypeRegistry :=
      match (callback_vec_args m).getLast? with
      | some arg =>
        let p := cc.2.register_type arg.ty
        (some ⟨p.1, arg.serializer_ty⟩, p.2)
      | none => (none, cc.2)
    let resRes : Option AbiParameter × TypeRegistry :=
      match m.returns with
      | some ty =>
        let p := vecRes.2.register_type ty
        (some ⟨p.1, m.result_serializer⟩, p.2)
      | none => (none, vecRes.2)
    (.ok ⟨m.ident, is_view, is_init, pp.1, cc.1, vecRes.1, resRes.1⟩, resRes.2)

/-- Modelled from the spec: the `near_bindgen` expansion driving
`metadata_struct` over an impl block is not under `src/`; per the spec the
traversal "walks a contract's public functions in declaration order" with
one shared registry. -/
def generateMetadata (r : TypeRegistry) :
    List MethodInfo → List (Except String AbiFunction) × TypeRegistry
  | [] => ([], r)
  | m :: ms =>
    let p := metadata_struct m r
    let q := generateMetadata p.2 ms
    (p.1 :: q.1, q.2)

/-- The sequence of types `metadata_struct` registers for one method, in
traversal order: regular parameters, then callback parameters, then — only
when the method does not get rejected — the callback-vector parameter and
the result type. -/
def registeredTypes (m : MethodInfo) : List Ty :=
  (m.input_args.map ArgInfo.ty) ++ ((callback_args m).map ArgInfo.ty) ++
    (if (callback_vec_args m).length > 1 then []
     else ((callback_vec_args m).map ArgInfo.ty) ++
       (match m.returns with
        | some ty => [ty]
        | none => []))

/-- The full registration sequence of one generation pass: functions in
declaration order, each contributing its `registeredTypes`. -/
def traversalOf : List MethodInfo → List Ty
  | [] => []
  | m :: ms => registeredTypes m ++ traversalOf ms

/-- The registry ids carried by one emitted `AbiFunction`, in the order the
record registers them: parameters, callbacks, callback vector, result. -/
def abiFunctionIds (f : AbiFunction) : List Nat :=
  f.params.map AbiParameter.type_id ++ f.callbacks.map AbiParameter.type_id ++
    (match f.callbacks_vec with
     | some p => [p.type_id]
     | none => []) ++
    (match f.result with
     | some p => [p.type_id]
     | none => [])

/-- All registry ids of a list of generation results, skipping errors. -/
def collectIds : List (Except String AbiFunction) → List Nat
  | [] => []
  | .ok f :: rest => abiFunctionIds f ++ collectIds rest
  | .error _ :: rest => collectIds rest

/-- Prefix test on character lists. -/
def charsPrefixOf : List Char → List Char → Bool
  | [], _ => true
  | _ :: _, [] => false
  | a :: as, b :: bs => a == b && charsPrefixOf as bs

/-- Infix test on character lists. -/
def charsInfixOf (sub : List Char) : List Char → Bool
  | [] => charsPrefixOf sub []
  | c :: cs => charsPrefixOf sub (c :: cs) || charsInfixOf sub cs

/-- Substring test, used to state whether an error message names a
function. -/
def containsSubstring (s sub : String) : Bool := charsInfixOf sub.data s.data

/-- Concrete method with two callback-vector parameters, named
`transfer`. -/
def mTwoVec : MethodInfo :=
  ⟨"transfer", .Regular,
   [⟨.u32, .CallbackArgVec, .json⟩, ⟨.u64, .CallbackArgVec, .json⟩],
   none, .json⟩

/-- Two concrete methods sharing the structural parameter type
`Pair(u32,u32)`, used to witness registry deduplication. -/
def fnsDup : List MethodInfo :=
  [⟨"f1", .Regular, [⟨.pair .u32 .u32, .Regular, .json⟩], some .u64, .json⟩,
   ⟨"f2", .View, [⟨.pair .u32 .u32, .Regular, .json⟩, ⟨.u32, .Regular, .json⟩],
    none, .json⟩]

/-- Shallow embedding of a JSON value. -/
inductive JsonValue where
  | str : String → JsonValue
  | num : Int → JsonValue
  | bool : Bool → JsonValue
  | null : JsonValue
  | arr : List JsonValue → JsonValue
  | obj : List (String × JsonValue) → JsonValue

/-- First-match field lookup in a JSON object. -/
def jsonLookup : List (String × JsonValue) → String → Option JsonValue
  | [], _ => none
  | (k, v) :: rest, key => if k = key then some v else jsonLookup rest key

/-- The field names of a serialized JSON object. -/
def jsonKeys : JsonValue → List String
  | .obj fields => fields.map Prod.fst
  | _ => []

/-- Opaque stand-in for `borsh::schema::BorshSchemaContainer`; its contents
are never serialized by the code under verification. -/
structure BorshSchemaContainer where
  decl : String
  deriving DecidableEq

/-- Embedding of `near_sdk::MethodMetadata` (near-sdk/src/metadata.rs lines
27-45). -/
structure MethodMetadata where
  name : String
  is_view : Bool
  is_init : Bool
  args : Option BorshSchemaContainer
  callbacks : List BorshSchemaContainer
  callbacks_vec : Option BorshSchemaContainer
  result : Option BorshSchemaContainer
  deriving DecidableEq

/-- Embedding of `near_sdk::Metadata` (near-sdk/src/metadata.rs lines
10-15); its `version` field is the `[u32; 3]` semver triple. -/
structure Metadata where
  version : Nat × Nat × Nat
  methods : List MethodMetadata

/-- JSON serialization of `MethodMetadata` under its serde attributes: the
fields `args`, `callbacks`, `callbacks_vec` and `result` carry
`#[serde(skip)]` and are not emitted; serde emits the remaining fields in
declaration order. -/
def serializeMethodMetadata (m : MethodMetadata) : JsonValue :=
  .obj [("name", .str m.name), ("is_view", .bool m.is_view),
        ("is_init", .bool m.is_init)]

/-- JSON deserialization of `MethodMetadata` under its serde attributes:
the three serialized fields are read from the object (unknown fields are
ignored, serde's default), and every `#[serde(skip)]` field takes its
`Default` value (`None` for `Option`, the empty vector for `Vec`). -/
def deserializeMethodMetadata : JsonValue → Option MethodMetadata
  | .obj fields =>
    (match jsonLookup fields "name", jsonLookup fields "is_view",
        jsonLookup fields "is_init" with
     | some (.str n), some (.bool v), some (.bool i) =>
       some ⟨n, v, i, none, [], none, none⟩
     | _, _, _ => none)
  | _ => none

/-- JSON serialization of `Metadata`: the semver triple and the methods
array.  This is the JSON the generated driver
(`templates/tools/generate-metadata/main.rs`) prints on stdout. -/
def serializeMetadata (md : Metadata) : JsonValue :=
  .obj [("version", .arr [.num md.version.1, .num md.version.2.1,
          .num md.version.2.2]),
        ("methods", .arr (md.methods.map serializeMethodMetadata))]

/-- The tool's ABI schema version constant.  Modelled from the spec: the
`Abi`/`AbiRoot` definitions (`near_sdk::__private`) are not under `src/`;
the spec fixes only that the artifact's schema version is a semver field
"unchanged from the tool's constant". -/
def ABI_SCHEMA_VERSION : String := "0.1.0"

/-- Modelled from the spec: `near_sdk::__private::Abi` — "ordered list of
AbiFunction, ordered list of TypeDef".  Function and type entries are kept
as raw JSON values, which is all the merge step inspects. -/
structure Abi where
  functions : List JsonValue
  types : List JsonValue

/-- Modelled from the spec: `near_sdk::__private::AbiRoot` — the "schema
format version (semver triple)" plus the structural `Abi`. -/
structure AbiRoot where
  abi_schema_version : String
  abi : Abi

/-- Modelled from the spec: deserialization of the driver's stdout into an
`AbiRoot` (the `serde_json::from_slice` call in `execute`).  The structural
`functions` and `types` lists are read from the JSON object; an absent
schema-version field defaults to the tool's constant, per the spec's
"declared schema version unchanged from the tool's constant". -/
def parseAbiRoot : JsonValue → Option AbiRoot
  | .obj fields =>
    (match jsonLookup fields "functions", jsonLookup fields "types" with
     | some (.arr fs), some (.arr ts) =>
       some ⟨(match jsonLookup fields "abi_schema_version" with
              | some (.str v) => v
              | _ => ABI_SCHEMA_VERSION), ⟨fs, ts⟩⟩
     | _, _ => none)
  | _ => none

/-- Embedding of `ContractMetaInfo` (cargo-near/src/metadata.rs lines
19-27). -/
structure ContractMetaInfo where
  name : String
  version : String
  authors : List String
  deriving DecidableEq

/-- Embedding of `ContractMetadata` (cargo-near/src/metadata.rs lines
29-38). -/
structure ContractMetadata where
  abi_schema_version : String
  metainfo : ContractMetaInfo
  abi : Abi

/-- Embedding of `ContractMetadata::new` (cargo-near/src/metadata.rs lines
40-48): the schema version and structural ABI come from the driver's
output, the metainfo from the crate's own package metadata. -/
def ContractMetadata.new (abi_root : AbiRoot) (metainfo : ContractMetaInfo) :
    ContractMetadata :=
  ⟨abi_root.abi_schema_version, metainfo, abi_root.abi⟩

/-- The crate package metadata read by `extract_metainfo` (name, version,
authors of the root package). -/
structure PackageMeta where
  name : String
  version : String
  authors : List String

/-- Embedding of `extract_metainfo` (cargo-near/src/metadata.rs lines
50-57). -/
def extract_metainfo (package : PackageMeta) : ContractMetaInfo :=
  ⟨package.name, package.version, package.authors⟩

/-- The pure merge step of `execute` (cargo-near/src/metadata.rs lines
78-81): parse the driver's stdout as an `AbiRoot`, extract the metainfo
from the package metadata, and combine them with `ContractMetadata::new`;
the result is what gets pretty-printed into `abi.json`. -/
def merge_step (package : PackageMeta) (stdout : JsonValue) :
    Option ContractMetadata :=
  match parseAbiRoot stdout with
  | some near_abi => some (ContractMetadata.new near_abi (extract_metainfo package))
  | none => none

theorem tblLookup_insert_self (t : TomlTable) (k : String) (v : Toml) :
    tblLookup (tblInsert t k v) k = some v := by
  induction t with
  | nil => simp [tblInsert, tblLookup]
  | cons kv rest ih =>
    obtain ⟨k', w⟩ := kv
    by_cases h : k' = k
    · simp [tblInsert, tblLookup, h]
    · simp [tblInsert, tblLookup, h, ih]

theorem tblLookup_insert_ne (t : TomlTable) (k k' : String) (v : Toml)
    (h : k' ≠ k) : tblLookup (tblInsert t k v) k' = tblLookup t k' := by
  induction t with
  | nil => simp [tblInsert, tblLookup, Ne.symm h]
  | cons kv rest ih =>
    obtain ⟨k₀, w⟩ := kv
    by_cases hk : k₀ = k
    · subst hk
      simp [tblInsert, tblLookup, Ne.symm h]
    · by_cases hk' : k₀ = k'
      · subst hk'
        simp [tblInsert, tblLookup, hk]
      · simp [tblInsert, tblLookup, hk, hk', ih]

theorem tblInsert_lookup_eq (t : TomlTable) (k : String) (v : Toml)
    (h : tblLookup t k = some v) : tblInsert t k v = t := by
  induction t with
  | nil => simp [tblLookup] at h
  | cons kv rest ih =>
    obtain ⟨k₀, w⟩ := kv
    by_cases hk : k₀ = k
    · subst hk
      simp [tblLookup] at h
      simp [tblInsert, h]
    · simp [tblLookup, hk] at h
      simp [tblInsert, hk, ih h]

theorem tblInsert_insert (t : TomlTable) (k : String) (v w : Toml) :
    tblInsert (tblInsert t k v) k w = tblInsert t k w := by
  induction t with
  | nil => simp [tblInsert]
  | cons kv rest ih =>
    obtain ⟨k₀, u⟩ := kv
    by_cases hk : k₀ = k
    · simp [tblInsert, hk]
    · simp [tblInsert, hk, ih]

theorem tblLookup_remove_self (t : TomlTable) (k : String) :
    tblLookup (tblRemove t k) k = none := by
  induction t with
  | nil => simp [tblRemove, tblLookup]
  | cons kv rest ih =>
    obtain ⟨k₀, w⟩ := kv
    by_cases hk : k₀ = k
    · simp [tblRemove, hk, ih]
    · simp [tblRemove, tblLookup, hk, ih]

theorem tblLookup_remove_ne (t : TomlTable) (k k' : String) (h : k' ≠ k) :
    tblLookup (tblRemove t k) k' = tblLookup t k' := by
  induction t with
  | nil => simp [tblRemove]
  | cons kv rest ih =>
    obtain ⟨k₀, w⟩ := kv
    by_cases hk : k₀ = k
    · subst hk
      simp [tblRemove, tblLookup, Ne.symm h, ih]
    · by_cases hk' : k₀ = k'
      · subst hk'
        simp [tblRemove, tblLookup, hk]
      · simp [tblRemove, tblLookup, hk, hk', ih]

theorem isRelativePath_join (d p : String) (h : isRelativePath d = false) :
    isRelativePath (joinPath d p) = false := by
  simp only [isRelativePath, bne_eq_false_iff_eq] at h ⊢
  obtain ⟨l⟩ := d
  cases l with
  | nil => simp at h
  | cons c rest =>
    simp at h
    subst h
    rfl

theorem crate_type_exists_append_self (ct : String) (a : List Toml) :
    crate_type_exists ct (a ++ [.str ct]) = true := by
  simp [crate_type_exists, List.any_append, Toml.as_str]

theorem crate_type_exists_iff_count_pos (ct : String) (a : List Toml) :
    crate_type_exists ct a = true ↔ 1 ≤ count_str ct a := by
  simp only [crate_type_exists, count_str]
  constructor
  · intro h
    obtain ⟨v, hv, hm⟩ := List.any_eq_true.mp h
    exact List.length_pos_of_mem (List.mem_filter.mpr ⟨hv, hm⟩)
  · intro h
    obtain ⟨v, hv⟩ := List.exists_mem_of_length_pos h
    obtain ⟨hva, hm⟩ := List.mem_filter.mp hv
    exact List.any_eq_true.mpr ⟨v, hva, hm⟩

/-- C7: for every manifest document whose `lib.crate-type` section is an
array, `with_added_crate_type t` succeeds, appends `t` to that array only
if no element already equals `t`, is idempotent (a second application
returns the same document), and the array never gains a duplicate of `t`
(the multiplicity of `t` in the result is `max` of its old multiplicity
and 1). -/
theorem c7_with_added_crate_type_idempotent
    (doc lib : TomlTable) (a : List Toml) (ct : String)
    (hlib : tblLookup doc "lib" = some (.table lib))
    (hct : tblLookup lib "crate-type" = some (.arr a)) :
    (with_added_crate_type ct doc).1 = .ok () ∧
    crate_types_of (with_added_crate_type ct doc).2 =
      some (if crate_type_exists ct a then a else a ++ [.str ct]) ∧
    with_added_crate_type ct (with_added_crate_type ct doc).2 =
      (.ok (), (with_added_crate_type ct doc).2) ∧
    count_str ct (if crate_type_exists ct a then a else a ++ [.str ct]) =
      max (count_str ct a) 1 := by
  by_cases he : crate_type_exists ct a = true
  · have hres : with_added_crate_type ct doc = (.ok (), doc) := by
      simp only [with_added_crate_type, hlib, hct, he, if_true]
    have hcount : 1 ≤ count_str ct a := (crate_type_exists_iff_count_pos ct a).mp he
    refine ⟨by rw [hres], ?_, ?_, ?_⟩
    · rw [hres]
      simp only [crate_types_of, hlib, hct, he, if_true]
    · rw [hres]
      exact hres
    · rw [if_pos he]
      exact (Nat.max_eq_left hcount).symm
  · rw [Bool.not_eq_true] at he
    have hres : with_added_crate_type ct doc =
        (.ok (), tblInsert doc "lib"
          (.table (tblInsert lib "crate-type" (.arr (a ++ [.str ct]))))) := by
      simp only [with_added_crate_type, hlib, hct, he]
      simp
    have hlook1 :
        tblLookup (tblInsert doc "lib"
          (.table (tblInsert lib "crate-type" (.arr (a ++ [.str ct]))))) "lib" =
        some (.table (tblInsert lib "crate-type" (.arr (a ++ [.str ct])))) :=
      tblLookup_insert_self doc "lib" _
    have hlook2 :
        tblLookup (tblInsert lib "crate-type" (.arr (a ++ [.str ct]))) "crate-type" =
        some (.arr (a ++ [.str ct])) :=
      tblLookup_insert_self lib "crate-type" _
    have hz : count_str ct a = 0 := by
      by_contra hnz
      have h1 : 1 ≤ count_str ct a := Nat.one_le_iff_ne_zero.mpr hnz
      rw [← crate_type_exists_iff_count_pos] at h1
      rw [he] at h1
      exact Bool.false_ne_true h1
    refine ⟨by rw [hres], ?_, ?_, ?_⟩
    · rw [hres]
      simp only [crate_types_of, hlook1, hlook2, he]
      simp
    · rw [hres]
      simp only [with_added_crate_type, hlook1, hlook2,
        crate_type_exists_append_self, if_true]
    · rw [if_neg (by rw [he]; exact Bool.false_ne_true)]
      have hstep : count_str ct (a ++ [.str ct]) = count_str ct a + 1 := by
        simp [count_str, List.filter_append, Toml.as_str]
      rw [hstep, hz]
      decide

/-- Witness for `c7_with_added_crate_type_idempotent`: the concrete manifest
`docLib`, whose `lib.crate-type` array is `[cdylib]`, extended with `rlib`. -/
theorem c7_with_added_crate_type_idempotent_witness :
    (tblLookup docLib "lib" = some (.table [("crate-type", .arr [.str "cdylib"])])) ∧
    ((with_added_crate_type "rlib" docLib).1 = .ok () ∧
     crate_types_of (with_added_crate_type "rlib" docLib).2 =
       some (if crate_type_exists "rlib" [.str "cdylib"] then [.str "cdylib"]
         else [.str "cdylib"] ++ [.str "rlib"]) ∧
     with_added_crate_type "rlib" (with_added_crate_type "rlib" docLib).2 =
       (.ok (), (with_added_crate_type "rlib" docLib).2) ∧
     count_str "rlib" (if crate_type_exists "rlib" [.str "cdylib"] then [.str "cdylib"]
       else [.str "cdylib"] ++ [.str "rlib"]) = max (count_str "rlib" [.str "cdylib"]) 1) :=
  ⟨rfl, c7_with_added_crate_type_idempotent docLib
    [("crate-type", .arr [.str "cdylib"])] [.str "cdylib"] "rlib" rfl rfl⟩

/-- C8: a manifest document with no top-level `lib` section fails
`with_added_crate_type` with the named structural error
"lib section not found", the in-memory document is left unchanged, and the
write pipeline produces no manifest file contents. -/
theorem c8_missing_lib_section (doc : TomlTable) (ct : String)
    (h : tblLookup doc "lib" = none) :
    with_added_crate_type ct doc = (.error "lib section not found", doc) ∧
    apply_edit_and_write ct doc = none := by
  have h1 : with_added_crate_type ct doc = (.error "lib section not found", doc) := by
    simp only [with_added_crate_type, h]
  exact ⟨h1, by simp only [apply_edit_and_write, h1]⟩

/-- Witness for `c8_missing_lib_section`: the concrete manifest `docNoLib`,
which has a `[package]` section but no `[lib]` section. -/
theorem c8_missing_lib_section_witness :
    tblLookup docNoLib "lib" = none ∧
    (with_added_crate_type "rlib" docNoLib =
      (.error "lib section not found", docNoLib) ∧
     apply_edit_and_write "rlib" docNoLib = none) :=
  ⟨rfl, c8_missing_lib_section docNoLib "rlib" rfl⟩

theorem to_absolute_ok (absDir vid : String) (v v' : Toml)
    (habs : isRelativePath absDir = false)
    (h : to_absolute absDir vid v = .ok v') :
    ∃ s', v' = .str s' ∧ isRelativePath s' = false ∧
      to_absolute absDir vid v' = .ok v' := by
  cases v with
  | str s =>
    simp only [to_absolute] at h
    by_cases hrel : isRelativePath s = true
    · rw [if_pos hrel] at h
      simp only [Except.ok.injEq] at h
      subst h
      have habs' := isRelativePath_join absDir s habs
      refine ⟨joinPath absDir s, rfl, habs', ?_⟩
      simp [to_absolute, habs']
    · rw [Bool.not_eq_true] at hrel
      rw [if_neg (by simp [hrel])] at h
      simp only [Except.ok.injEq] at h
      subst h
      refine ⟨s, rfl, hrel, ?_⟩
      simp [to_absolute, hrel]
  | int n => simp [to_absolute] at h
  | boolean b => simp [to_absolute] at h
  | arr l => simp [to_absolute] at h
  | table t => simp [to_absolute] at h

theorem rewrite_path_fixed (absDir : String) (fs : List String)
    (sec dflt : String) (v v' : Toml)
    (habs : isRelativePath absDir = false)
    (h : rewrite_path absDir fs sec dflt v = .ok v') :
    rewrite_path absDir fs sec dflt v' = .ok v' := by
  cases v with
  | table t =>
    simp only [rewrite_path] at h
    cases hp : tblLookup t "path" with
    | some p =>
      simp only [hp] at h
      cases hta : to_absolute absDir ("[" ++ sec ++ "]/path") p with
      | error e =>
        simp only [hta] at h
        exact Except.noConfusion h
      | ok p' =>
        simp only [hta, Except.ok.injEq] at h
        subst h
        obtain ⟨s', rfl, habs', hfix⟩ := to_absolute_ok absDir _ p p' habs hta
        simp only [rewrite_path, tblLookup_insert_self, hfix, tblInsert_insert]
    | none =>
      simp only [hp] at h
      by_cases hd : fs.contains dflt = true
      · rw [if_pos hd] at h
        simp only [Except.ok.injEq] at h
        subst h
        have habs' := isRelativePath_join absDir dflt habs
        simp only [rewrite_path, tblLookup_insert_self, to_absolute, habs',
          Bool.false_eq_true, if_false, tblInsert_insert]
      · rw [if_neg hd] at h
        exact Except.noConfusion h
  | str s => exact Except.noConfusion h
  | int n => exact Except.noConfusion h
  | boolean b => exact Except.noConfusion h
  | arr l => exact Except.noConfusion h

theorem resolved_package_name_insert_path (name : String) (t : TomlTable)
    (p : Toml) :
    resolved_package_name name (.table (tblInsert t "path" p)) =
      resolved_package_name name (.table t) := by
  simp only [resolved_package_name,
    tblLookup_insert_ne t "path" "package" p (by decide)]

theorem rewrite_dep_fixed (absDir : String) (exclude : List String)
    (name : String) (v v' : Toml)
    (habs : isRelativePath absDir = false)
    (h : rewrite_dep absDir exclude name v = .ok v') :
    rewrite_dep absDir exclude name v' = .ok v' := by
  cases v with
  | table t =>
    by_cases hex : exclude.contains (resolved_package_name name (.table t)) = true
    · simp only [rewrite_dep] at h
      rw [if_pos hex] at h
      simp only [Except.ok.injEq] at h
      subst h
      simp only [rewrite_dep]
      rw [if_pos hex]
    · simp only [rewrite_dep] at h
      rw [if_neg hex] at h
      cases hp : tblLookup t "path" with
      | some p =>
        simp only [hp] at h
        cases hta : to_absolute absDir
            ("dependency " ++ resolved_package_name name (.table t)) p with
        | error e =>
          simp only [hta] at h
          exact Except.noConfusion h
        | ok p' =>
          simp only [hta, Except.ok.injEq] at h
          subst h
          obtain ⟨s', rfl, habs', hfix⟩ := to_absolute_ok absDir _ p p' habs hta
          have hname := resolved_package_name_insert_path name t (.str s')
          simp only [rewrite_dep, hname]
          rw [if_neg hex]
          simp only [tblLookup_insert_self, hfix, tblInsert_insert]
      | none =>
        simp only [hp, Except.ok.injEq] at h
        subst h
        simp only [rewrite_dep]
        rw [if_neg hex]
        simp only [hp]
  | str s =>
    by_cases hex : exclude.contains (resolved_package_name name (.str s)) = true
    · simp only [rewrite_dep] at h
      rw [if_pos hex] at h
      simp only [Except.ok.injEq] at h
      subst h
      simp only [rewrite_dep]
      rw [if_pos hex]
    · simp only [rewrite_dep] at h
      rw [if_neg hex] at h
      simp only [Except.ok.injEq] at h
      subst h
      simp only [rewrite_dep]
      rw [if_neg hex]
  | int n =>
    by_cases hex : exclude.contains (resolved_package_name name (.int n)) = true
    · simp only [rewrite_dep] at h
      rw [if_pos hex] at h
      simp only [Except.ok.injEq] at h
      subst h
      simp only [rewrite_dep]
      rw [if_pos hex]
    · simp only [rewrite_dep] at h
      rw [if_neg hex] at h
      simp only [Except.ok.injEq] at h
      subst h
      simp only [rewrite_dep]
      rw [if_neg hex]
  | boolean b =>
    by_cases hex : exclude.contains (resolved_package_name name (.boolean b)) = true
    · simp only [rewrite_dep] at h
      rw [if_pos hex] at h
      simp only [Except.ok.injEq] at h
      subst h
      simp only [rewrite_dep]
      rw [if_pos hex]
    · simp only [rewrite_dep] at h
      rw [if_neg hex] at h
      simp only [Except.ok.injEq] at h
      subst h
      simp only [rewrite_dep]
      rw [if_neg hex]
  | arr l =>
    by_cases hex : exclude.contains (resolved_package_name name (.arr l)) = true
    · simp only [rewrite_dep] at h
      rw [if_pos hex] at h
      simp only [Except.ok.injEq] at h
      subst h
      simp only [rewrite_dep]
      rw [if_pos hex]
    · simp only [rewrite_dep] at h
      rw [if_neg hex] at h
      simp only [Except.ok.injEq] at h
      subst h
      simp only [rewrite_dep]
      rw [if_neg hex]

theorem rewrite_deps_fixed (absDir : String) (exclude : List String)
    (deps deps' : TomlTable) (habs : isRelativePath absDir = false)
    (h : rewrite_deps absDir exclude deps = .ok deps') :
    rewrite_deps absDir exclude deps' = .ok deps' := by
  induction deps generalizing deps' with
  | nil =>
    simp only [rewrite_deps, Except.ok.injEq] at h
    subst h
    rfl
  | cons kv rest ih =>
    obtain ⟨name, v⟩ := kv
    simp only [rewrite_deps] at h
    cases hv : rewrite_dep absDir exclude name v with
    | error e => rw [hv] at h; simp at h
    | ok v' =>
      rw [hv] at h
      cases hrest : rewrite_deps absDir exclude rest with
      | error e => rw [hrest] at h; simp at h
      | ok rest' =>
        rw [hrest] at h
        simp only [Except.ok.injEq] at h
        subst h
        simp only [rewrite_deps, rewrite_dep_fixed absDir exclude name v v' habs hv,
          ih rest' hrest]

theorem mapExcept_fixed {α : Type} (f : α → Except String α)
    (hf : ∀ x y, f x = .ok y → f y = .ok y)
    (xs ys : List α) (h : mapExcept f xs = .ok ys) :
    mapExcept f ys = .ok ys := by
  induction xs generalizing ys with
  | nil =>
    simp only [mapExcept, Except.ok.injEq] at h
    subst h
    rfl
  | cons x xs ih =>
    simp only [mapExcept] at h
    cases hx : f x with
    | error e =>
      simp only [hx] at h
      exact Except.noConfusion h
    | ok y =>
      simp only [hx] at h
      cases hxs : mapExcept f xs with
      | error e =>
        simp only [hxs] at h
        exact Except.noConfusion h
      | ok ys'
 =>
        simp only [hxs, Except.ok.injEq] at h
        subst h
        simp only [mapExcept, hf x y hx, ih ys' hxs]

theorem stage_lib_ok_cases (absDir : String) (fs : List String)
    (doc d : TomlTable) (h : stage_lib absDir fs doc = .ok d) :
    (tblLookup doc "lib" = none ∧ d = doc) ∨
    (∃ lib lib', tblLookup doc "lib" = some lib ∧
      rewrite_path absDir fs "lib" "src/lib.rs" lib = .ok lib' ∧
      d = tblInsert doc "lib" lib') := by
  cases hl : tblLookup doc "lib" with
  | none =>
    simp only [stage_lib, hl, Except.ok.injEq] at h
    exact Or.inl ⟨rfl, h.symm⟩
  | some lib =>
    simp only [stage_lib, hl] at h
    cases hrp : rewrite_path absDir fs "lib" "src/lib.rs" lib with
    | error e =>
      simp only [hrp] at h
      exact Except.noConfusion h
    | ok lib' =>
      simp only [hrp, Except.ok.injEq] at h
      exact Or.inr ⟨lib, lib', rfl, hrp, h.symm⟩

theorem stage_bin_ok_cases (absDir : String) (fs : List String)
    (doc d : TomlTable) (h : stage_bin absDir fs doc = .ok d) :
    (tblLookup doc "bin" = none ∧ d = doc) ∨
    (∃ bins bins', tblLookup doc "bin" = some (.arr bins) ∧
      mapExcept (rewrite_path absDir fs "[bin]" "src/main.rs") bins = .ok bins' ∧
      d = tblInsert doc "bin" (.arr bins')) := by
  cases hl : tblLookup doc "bin" with
  | none =>
    simp only [stage_bin, hl, Except.ok.injEq] at h
    exact Or.inl ⟨rfl, h.symm⟩
  | some v =>
    cases v with
    | arr bins =>
      simp only [stage_bin, hl] at h
      cases hm : mapExcept (rewrite_path absDir fs "[bin]" "src/main.rs") bins with
      | error e =>
        simp only [hm] at h
        exact Except.noConfusion h
      | ok bins' =>
        simp only [hm, Except.ok.injEq] at h
        exact Or.inr ⟨bins, bins', rfl, hm, h.symm⟩
    | str s => simp only [stage_bin, hl] at h; exact Except.noConfusion h
    | int n => simp only [stage_bin, hl] at h; exact Except.noConfusion h
    | boolean b => simp only [stage_bin, hl] at h; exact Except.noConfusion h
    | table t => simp only [stage_bin, hl] at h; exact Except.noConfusion h

theorem stage_deps_ok_cases (absDir : String) (exclude : List String)
    (doc d : TomlTable) (h : stage_deps absDir exclude doc = .ok d) :
    (tblLookup doc "dependencies" = none ∧ d = doc) ∨
    (∃ deps deps', tblLookup doc "dependencies" = some (.table deps) ∧
      rewrite_deps absDir exclude deps = .ok deps' ∧
      d = tblInsert doc "dependencies" (.table deps')) := by
  cases hl : tblLookup doc "dependencies" with
  | none =>
    simp only [stage_deps, hl, Except.ok.injEq] at h
    exact Or.inl ⟨rfl, h.symm⟩
  | some v =>
    cases v with
    | table deps =>
      simp only [stage_deps, hl] at h
      cases hm : rewrite_deps absDir exclude deps with
      | error e =>
        simp only [hm] at h
        exact Except.noConfusion h
      | ok deps' =>
        simp only [hm, Except.ok.injEq] at h
        exact Or.inr ⟨deps, deps', rfl, hm, h.symm⟩
    | str s => simp only [stage_deps, hl] at h; exact Except.noConfusion h
    | int n => simp only [stage_deps, hl] at h; exact Except.noConfusion h
    | boolean b => simp only [stage_deps, hl] at h; exact Except.noConfusion h
    | arr l => simp only [stage_deps, hl] at h; exact Except.noConfusion h

theorem stage_lib_frame (absDir : String) (fs : List String)
    (doc d : TomlTable) (h : stage_lib absDir fs doc = .ok d)
    (k : String) (hk : k ≠ "lib") : tblLookup d k = tblLookup doc k := by
  rcases stage_lib_ok_cases absDir fs doc d h with ⟨_, rfl⟩ | ⟨lib, lib', _, _, rfl⟩
  · rfl
  · exact tblLookup_insert_ne doc "lib" k lib' hk

theorem stage_bin_frame (absDir : String) (fs : List String)
    (doc d : TomlTable) (h : stage_bin absDir fs doc = .ok d)
    (k : String) (hk : k ≠ "bin") : tblLookup d k = tblLookup doc k := by
  rcases stage_bin_ok_cases absDir fs doc d h with ⟨_, rfl⟩ | ⟨bins, bins', _, _, rfl⟩
  · rfl
  · exact tblLookup_insert_ne doc "bin" k (.arr bins') hk

theorem stage_deps_frame (absDir : String) (exclude : List String)
    (doc d : TomlTable) (h : stage_deps absDir exclude doc = .ok d)
    (k : String) (hk : k ≠ "dependencies") : tblLookup d k = tblLookup doc k := by
  rcases stage_deps_ok_cases absDir exclude doc d h with ⟨_, rfl⟩ | ⟨deps, deps', _, _, rfl⟩
  · rfl
  · exact tblLookup_insert_ne doc "dependencies" k (.table deps') hk

theorem stage_lib_of_fixed (absDir : String) (fs : List String) (d : TomlTable)
    (hfix : ∀ v, tblLookup d "lib" = some v →
      rewrite_path absDir fs "lib" "src/lib.rs" v = .ok v) :
    stage_lib absDir fs d = .ok d := by
  cases hl : tblLookup d "lib" with
  | none => simp [stage_lib, hl]
  | some v =>
    simp only [stage_lib, hl, hfix v hl]
    rw [tblInsert_lookup_eq d "lib" v hl]

theorem stage_bin_of_fixed (absDir : String) (fs : List String) (d : TomlTable)
    (hfix : ∀ v, tblLookup d "bin" = some v → ∃ bins, v = .arr bins ∧
      mapExcept (rewrite_path absDir fs "[bin]" "src/main.rs") bins = .ok bins) :
    stage_bin absDir fs d = .ok d := by
  cases hl : tblLookup d "bin" with
  | none => simp [stage_bin, hl]
  | some v =>
    obtain ⟨bins, rfl, hmap⟩ := hfix v hl
    simp only [stage_bin, hl, hmap]
    rw [tblInsert_lookup_eq d "bin" (.arr bins) hl]

theorem stage_deps_of_fixed (absDir : String) (exclude : List String) (d : TomlTable)
    (hfix : ∀ v, tblLookup d "dependencies" = some v → ∃ deps, v = .table deps ∧
      rewrite_deps absDir exclude deps = .ok deps) :
    stage_deps absDir exclude d = .ok d := by
  cases hl : tblLookup d "dependencies" with
  | none => simp [stage_deps, hl]
  | some v =>
    obtain ⟨deps, rfl, hrd⟩ := hfix v hl
    simp only [stage_deps, hl, hrd]
    rw [tblInsert_lookup_eq d "dependencies" (.table deps) hl]

/-- C4: for every manifest document in which every `[lib]` path, `[[bin]]`
path and dependency `path` value is already an absolute path, applying
`rewrite_relative_paths` twice (with the same exclusion set, the same
canonical manifest directory and the same filesystem) yields the same
document as applying it once: whenever the first application succeeds with
document `d`, the second application returns `d` again. -/
theorem c4_rewrite_relative_paths_idempotent
    (absDir : String) (fs exclude : List String) (doc d : TomlTable)
    (habs : isRelativePath absDir = false)
    (hall : all_manifest_paths_absolute doc = true)
    (h : rewrite_relative_paths absDir fs exclude doc = .ok d) :
    rewrite_relative_paths absDir fs exclude d = .ok d := by
  simp only [rewrite_relative_paths] at h
  cases h1 : stage_lib absDir fs doc with
  | error e =>
    simp only [h1] at h
    exact Except.noConfusion h
  | ok d₁ =>
    simp only [h1] at h
    cases h2 : stage_bin absDir fs d₁ with
    | error e =>
      simp only [h2] at h
      exact Except.noConfusion h
    | ok d₂ =>
      simp only [h2] at h
      -- h : stage_deps absDir exclude d₂ = .ok d
      have hlibd : tblLookup d "lib" = tblLookup d₁ "lib" := by
        rw [stage_deps_frame absDir exclude d₂ d h "lib" (by decide)]
        exact stage_bin_frame absDir fs d₁ d₂ h2 "lib" (by decide)
      have hbind : tblLookup d "bin" = tblLookup d₂ "bin" :=
        stage_deps_frame absDir exclude d₂ d h "bin" (by decide)
      have hfix_lib : ∀ v, tblLookup d "lib" = some v →
          rewrite_path absDir fs "lib" "src/lib.rs" v = .ok v := by
        intro v hv
        rcases stage_lib_ok_cases absDir fs doc d₁ h1 with
          ⟨hnone, rfl⟩ | ⟨lib, lib', hsome, hrw, rfl⟩
        · rw [hlibd, hnone] at hv
          exact Option.noConfusion hv
        · rw [hlibd, tblLookup_insert_self] at hv
          obtain rfl : lib' = v := by injection hv
          exact rewrite_path_fixed absDir fs "lib" "src/lib.rs" lib lib' habs hrw
      have hfix_bin : ∀ v, tblLookup d "bin" = some v → ∃ bins, v = .arr bins ∧
          mapExcept (rewrite_path absDir fs "[bin]" "src/main.rs") bins = .ok bins := by
        intro v hv
        rcases stage_bin_ok_cases absDir fs d₁ d₂ h2 with
          ⟨hnone, rfl⟩ | ⟨bins, bins', hsome, hmap, rfl⟩
        · rw [hbind, hnone] at hv
          exact Option.noConfusion hv
        · rw [hbind, tblLookup_insert_self] at hv
          obtain rfl : Toml.arr bins' = v := by injection hv
          refine ⟨bins', rfl, ?_⟩
          exact mapExcept_fixed _ (fun x y hxy => rewrite_path_fixed absDir fs "[bin]"
            "src/main.rs" x y habs hxy) bins bins' hmap
      have hfix_deps : ∀ v, tblLookup d "dependencies" = some v →
          ∃ deps, v = .table deps ∧ rewrite_deps absDir exclude deps = .ok deps := by
        intro v hv
        rcases stage_deps_ok_cases absDir exclude d₂ d h with
          ⟨hnone, rfl⟩ | ⟨deps, deps', hsome, hrd, rfl⟩
        · rw [hnone] at hv
          exact Option.noConfusion hv
        · rw [tblLookup_insert_self] at hv
          obtain rfl : Toml.table deps' = v := by injection hv
          exact ⟨deps', rfl, rewrite_deps_fixed absDir exclude deps deps' habs hrd⟩
      simp only [rewrite_relative_paths, stage_lib_of_fixed absDir fs d hfix_lib,
        stage_bin_of_fixed absDir fs d hfix_bin,
        stage_deps_of_fixed absDir exclude d hfix_deps]

/-- Witness for `c4_rewrite_relative_paths_idempotent`: the already-absolute
manifest `docAbs` is mapped to itself, and a second application returns it
unchanged again. -/
theorem c4_rewrite_relative_paths_idempotent_witness :
    (isRelativePath "/w" = false ∧
     all_manifest_paths_absolute docAbs = true ∧
     rewrite_relative_paths "/w" [] [] docAbs = .ok docAbs) ∧
    rewrite_relative_paths "/w" [] [] docAbs = .ok docAbs :=
  ⟨⟨rfl, rfl, rfl⟩,
   c4_rewrite_relative_paths_idempotent "/w" [] [] docAbs docAbs rfl rfl rfl⟩

theorem mapExcept_get {α β : Type} (f : α → Except String β) (xs : List α)
    (ys : List β) (h : mapExcept f xs = .ok ys) (i : Nat) (x : α)
    (hx : xs.get? i = some x) : ∃ y, ys.get? i = some y ∧ f x = .ok y := by
  induction xs generalizing ys i with
  | nil => simp at hx
  | cons a xs ih =>
    simp only [mapExcept] at h
    cases ha : f a with
    | error e =>
      simp only [ha] at h
      exact Except.noConfusion h
    | ok y =>
      simp only [ha] at h
      cases hxs : mapExcept f xs with
      | error e =>
        simp only [hxs] at h
        exact Except.noConfusion h
      | ok ys' =>
        simp only [hxs, Except.ok.injEq] at h
        subst h
        cases i with
        | zero =>
          simp only [List.get?] at hx
          obtain rfl : a = x := by injection hx
          exact ⟨y, rfl, ha⟩
        | succ i =>
          simp only [List.get?] at hx ⊢
          exact ih _ hxs _ hx

theorem rewrite_deps_pointwise (absDir : String) (exclude : List String)
    (deps deps' : TomlTable)
    (h : rewrite_deps absDir exclude deps = .ok deps') :
    deps'.length = deps.length ∧
    ∀ i name v, deps.get? i = some (name, v) →
      ∃ v', deps'.get? i = some (name, v') ∧
        rewrite_dep absDir exclude name v = .ok v' := by
  induction deps generalizing deps' with
  | nil =>
    simp only [rewrite_deps, Except.ok.injEq] at h
    subst h
    exact ⟨rfl, by intro i name v hx; simp at hx⟩
  | cons kv rest ih =>
    obtain ⟨name₀, v₀⟩ := kv
    simp only [rewrite_deps] at h
    cases hv : rewrite_dep absDir exclude name₀ v₀ with
    | error e =>
      simp only [hv] at h
      exact Except.noConfusion h
    | ok v₀' =>
      simp only [hv] at h
      cases hrest : rewrite_deps absDir exclude rest with
      | error e =>
        simp only [hrest] at h
        exact Except.noConfusion h
      | ok rest' =>
        simp only [hrest, Except.ok.injEq] at h
        subst h
        obtain ⟨hlen, hpt⟩ := ih rest' hrest
        refine ⟨by simp [hlen], ?_⟩
        intro i name v hx
        cases i with
        | zero =>
          simp only [List.get?] at hx ⊢
          obtain ⟨rfl, rfl⟩ : name₀ = name ∧ v₀ = v := by
            injection hx with hx
            exact ⟨congrArg Prod.fst hx, congrArg Prod.snd hx⟩
          exact ⟨v₀', rfl, hv⟩
        | succ i =>
          simp only [List.get?] at hx ⊢
          exact hpt i name v hx

theorem rewrite_dep_excluded (absDir : String) (exclude : List String)
    (name : String) (v : Toml)
    (hex : exclude.contains (resolved_package_name name v) = true) :
    rewrite_dep absDir exclude name v = .ok v := by
  cases v <;> · simp only [rewrite_dep]; rw [if_pos hex]

theorem rewrite_dep_spec (absDir : String) (exclude : List String)
    (name : String) (v v' : Toml) (habs : isRelativePath absDir = false)
    (h : rewrite_dep absDir exclude name v = .ok v') :
    dep_rewrite_spec absDir exclude name v v' := by
  by_cases hex : exclude.contains (resolved_package_name name v) = true
  · rw [rewrite_dep_excluded absDir exclude name v hex] at h
    injection h with h
    constructor
    · intro _
      exact h.symm
    · intro hc
      rw [hex] at hc
      exact Bool.noConfusion hc
  · constructor
    · intro hc
      exact absurd hc hex
    · intro _
      cases v with
      | table t =>
        simp only [rewrite_dep] at h
        rw [if_neg hex] at h
        simp only [dep_rewrite_spec]
        cases hp : tblLookup t "path" with
        | some p =>
          simp only [hp] at h ⊢
          cases p with
          | str s =>
            simp only [to_absolute] at h
            by_cases hrel : isRelativePath s = true
            · rw [if_pos hrel] at h
              simp only [Except.ok.injEq] at h
              subst h
              refine ⟨s, tblInsert t "path" (.str (joinPath absDir s)), rfl, ?_, ?_, ?_, ?_⟩
              · rfl
              · rw [if_pos hrel]
                exact tblLookup_insert_self t "path" _
              · rw [if_pos hrel]
                exact isRelativePath_join absDir s habs
              · intro k hk
                exact tblLookup_insert_ne t "path" k _ hk
            · rw [if_neg hrel] at h
              rw [Bool.not_eq_true] at hrel
              simp only [Except.ok.injEq] at h
              subst h
              refine ⟨s, tblInsert t "path" (.str s), rfl, ?_, ?_, ?_, ?_⟩
              · rfl
              · rw [if_neg (by rw [hrel]; exact Bool.false_ne_true)]
                exact tblLookup_insert_self t "path" _
              · rw [if_neg (by rw [hrel]; exact Bool.false_ne_true)]
                exact hrel
              · intro k hk
                exact tblLookup_insert_ne t "path" k _ hk
          | int n => exact Except.noConfusion h
          | boolean b => exact Except.noConfusion h
          | arr l => exact Except.noConfusion h
          | table t2 => exact Except.noConfusion h
        | none =>
          simp only [hp] at h ⊢
          injection h with h
          exact h.symm
      | str s =>
        simp only [rewrite_dep] at h
        rw [if_neg hex] at h
        injection h with h
        exact h.symm
      | int n =>
        simp only [rewrite_dep] at h
        rw [if_neg hex] at h
        injection h with h
        exact h.symm
      | boolean b =>
        simp only [rewrite_dep] at h
        rw [if_neg hex] at h
        injection h with h
        exact h.symm
      | arr l =>
        simp only [rewrite_dep] at h
        rw [if_neg hex] at h
        injection h with h
        exact h.symm

/-- C5: for every manifest document and every caller-supplied exclusion
set, a successful `rewrite_relative_paths` maps the `[dependencies]` table
pointwise: every dependency whose resolved package name (its `package` key
when present, otherwise its dependency key) is in the exclusion set is left
entirely untouched, the `path` value of every non-excluded path-valued
dependency becomes absolute (relative values are joined onto the manifest
directory), and every other field of every dependency is unchanged
(`dep_rewrite_spec`). -/
theorem c5_rewrite_relative_paths_deps_frame
    (absDir : String) (fs exclude : List String) (doc d deps : TomlTable)
    (habs : isRelativePath absDir = false)
    (hdeps : tblLookup doc "dependencies" = some (.table deps))
    (h : rewrite_relative_paths absDir fs exclude doc = .ok d) :
    ∃ deps', tblLookup d "dependencies" = some (.table deps') ∧
      deps'.length = deps.length ∧
      ∀ i name v, deps.get? i = some (name, v) →
        ∃ v', deps'.get? i = some ((name, v') : String × Toml) ∧
          dep_rewrite_spec absDir exclude name v v' := by
  simp only [rewrite_relative_paths] at h
  cases h1 : stage_lib absDir fs doc with
  | error e =>
    simp only [h1] at h
    exact Except.noConfusion h
  | ok d₁ =>
    simp only [h1] at h
    cases h2 : stage_bin absDir fs d₁ with
    | error e =>
      simp only [h2] at h
      exact Except.noConfusion h
    | ok d₂ =>
      simp only [h2] at h
      have hd₂ : tblLookup d₂ "dependencies" = some (.table deps) := by
        rw [stage_bin_frame absDir fs d₁ d₂ h2 "dependencies" (by decide),
          stage_lib_frame absDir fs doc d₁ h1 "dependencies" (by decide), hdeps]
      rcases stage_deps_ok_cases absDir exclude d₂ d h with
        ⟨hnone, rfl⟩ | ⟨deps₀, deps', hsome, hrd, rfl⟩
      · rw [hd₂] at hnone
        exact Option.noConfusion hnone
      · rw [hd₂] at hsome
        obtain rfl : deps = deps₀ := by
          injection hsome with hs
          injection hs
        refine ⟨deps', tblLookup_insert_self d₂ "dependencies" _, ?_, ?_⟩
        · exact (rewrite_deps_pointwise absDir exclude deps deps' hrd).1
        · intro i name v hx
          obtain ⟨v', hv', hdep⟩ :=
            (rewrite_deps_pointwise absDir exclude deps deps' hrd).2 i name v hx
          exact ⟨v', hv', rewrite_dep_spec absDir exclude name v v' habs hdep⟩

/-- Witness for `c5_rewrite_relative_paths_deps_frame`: the concrete
manifest `docDeps` with exclusion set `[skipme]` and manifest directory
`/w`. -/
theorem c5_rewrite_relative_paths_deps_frame_witness :
    (isRelativePath "/w" = false ∧
     tblLookup docDeps "dependencies" = some (.table depsIn) ∧
     rewrite_relative_paths "/w" [] ["skipme"] docDeps = .ok docDepsOut) ∧
    (∃ deps', tblLookup docDepsOut "dependencies" = some (.table deps') ∧
      deps'.length = depsIn.length ∧
      ∀ i name v, depsIn.get? i = some (name, v) →
        ∃ v', deps'.get? i = some ((name, v') : String × Toml) ∧
          dep_rewrite_spec "/w" ["skipme"] name v v') :=
  ⟨⟨rfl, rfl, rfl⟩,
   c5_rewrite_relative_paths_deps_frame "/w" [] ["skipme"] docDeps docDepsOut
     depsIn rfl rfl rfl⟩

theorem rewrite_path_no_path (absDir : String) (fs : List String)
    (sec dflt : String) (t : TomlTable) (hp : tblLookup t "path" = none) :
    rewrite_path absDir fs sec dflt (.table t) =
      if fs.contains dflt then
        .ok (.table (tblInsert t "path" (.str (joinPath absDir dflt))))
      else
        .error ("No path specified, and the default `" ++ dflt ++ "` was not found") := by
  simp only [rewrite_path, hp]

theorem stage_lib_no_path (absDir : String) (fs : List String)
    (doc t : TomlTable)
    (hlib : tblLookup doc "lib" = some (.table t))
    (hpath : tblLookup t "path" = none) :
    stage_lib absDir fs doc =
      if fs.contains "src/lib.rs" then
        .ok (tblInsert doc "lib"
          (.table (tblInsert t "path" (.str (joinPath absDir "src/lib.rs")))))
      else
        .error "No path specified, and the default `src/lib.rs` was not found" := by
  simp only [stage_lib, hlib,
    rewrite_path_no_path absDir fs "lib" "src/lib.rs" t hpath]
  by_cases hfs : fs.contains "src/lib.rs" = true
  · rw [if_pos hfs, if_pos hfs]
  · rw [if_neg hfs, if_neg hfs]
    rfl

/-- C9: for every manifest whose `[lib]` section (respectively one of whose
`[[bin]]` entries) lacks a `path` key, `rewrite_relative_paths` fails when
the default file (`src/lib.rs`, respectively `src/main.rs`) does not exist,
and otherwise, whenever it succeeds, the resulting section carries an
inserted `path` value equal to the manifest's canonical absolute directory
joined with that default. -/
theorem c9_rewrite_relative_paths_default_paths
    (absDir : String) (fs exclude : List String) (doc : TomlTable) :
    (∀ t, tblLookup doc "lib" = some (.table t) → tblLookup t "path" = none →
      (fs.contains "src/lib.rs" = false →
        rewrite_relative_paths absDir fs exclude doc =
          .error "No path specified, and the default `src/lib.rs` was not found") ∧
      (∀ d, rewrite_relative_paths absDir fs exclude doc = .ok d →
        tblLookup d "lib" = some (.table (tblInsert t "path"
          (.str (joinPath absDir "src/lib.rs")))))) ∧
    (∀ bins i t, tblLookup doc "bin" = some (.arr bins) →
      bins.get? i = some (.table t) → tblLookup t "path" = none →
      (fs.contains "src/main.rs" = false →
        ∀ d, ¬ rewrite_relative_paths absDir fs exclude doc = .ok d) ∧
      (∀ d, rewrite_relative_paths absDir fs exclude doc = .ok d →
        ∃ bins', tblLookup d "bin" = some (.arr bins') ∧
          bins'.get? i = some (.table (tblInsert t "path"
            (.str (joinPath absDir "src/main.rs")))))) := by
  constructor
  · intro t hlib hpath
    constructor
    · intro hfs
      have hstage := stage_lib_no_path absDir fs doc t hlib hpath
      rw [if_neg (by rw [hfs]; exact Bool.false_ne_true)] at hstage
      simp only [rewrite_relative_paths, hstage]
    · intro d hd
      simp only [rewrite_relative_paths] at hd
      cases h1 : stage_lib absDir fs doc with
      | error e =>
        simp only [h1] at hd
        exact Except.noConfusion hd
      | ok d₁ =>
        simp only [h1] at hd
        cases h2 : stage_bin absDir fs d₁ with
        | error e =>
          simp only [h2] at hd
          exact Except.noConfusion hd
        | ok d₂ =>
          simp only [h2] at hd
          have hstage := stage_lib_no_path absDir fs doc t hlib hpath
          by_cases hfs : fs.contains "src/lib.rs" = true
          · rw [stage_deps_frame absDir exclude d₂ d hd "lib" (by decide),
              stage_bin_frame absDir fs d₁ d₂ h2 "lib" (by decide)]
            rw [if_pos hfs, h1] at hstage
            obtain rfl : d₁ = tblInsert doc "lib" (.table (tblInsert t "path"
                (.str (joinPath absDir "src/lib.rs")))) := by
              injection hstage
            exact tblLookup_insert_self doc "lib" _
          · rw [if_neg hfs, h1] at hstage
            exact Except.noConfusion hstage
  · intro bins i t hbin hent hpath
    have hfbin : ∀ d₁, stage_lib absDir fs doc = .ok d₁ →
        tblLookup d₁ "bin" = some (.arr bins) := by
      intro d₁ h1
      rw [stage_lib_frame absDir fs doc d₁ h1 "bin" (by decide), hbin]
    constructor
    · intro hfs d hd
      simp only [rewrite_relative_paths] at hd
      cases h1 : stage_lib absDir fs doc with
      | error e =>
        simp only [h1] at hd
        exact Except.noConfusion hd
      | ok d₁ =>
        simp only [h1] at hd
        cases h2 : stage_bin absDir fs d₁ with
        | error e =>
          simp only [h2] at hd
          exact Except.noConfusion hd
        | ok d₂ =>
          rcases stage_bin_ok_cases absDir fs d₁ d₂ h2 with
            ⟨hnone, _⟩ | ⟨bins₀, bins', hsome, hmap, _⟩
          · rw [hfbin d₁ h1] at hnone
            exact Option.noConfusion hnone
          · rw [hfbin d₁ h1] at hsome
            obtain rfl : bins = bins₀ := by
              injection hsome with hs
              injection hs
            obtain ⟨y, hy, hf⟩ := mapExcept_get _ bins bins' hmap i (.table t) hent
            rw [rewrite_path_no_path absDir fs "[bin]" "src/main.rs" t hpath] at hf
            rw [if_neg (by rw [hfs]; exact Bool.false_ne_true)] at hf
            exact Except.noConfusion hf
    · intro d hd
      simp only [rewrite_relative_paths] at hd
      cases h1 : stage_lib absDir fs doc with
      | error e =>
        simp only [h1] at hd
        exact Except.noConfusion hd
      | ok d₁ =>
        simp only [h1] at hd
        cases h2 : stage_bin absDir fs d₁ with
        | error e =>
          simp only [h2] at hd
          exact Except.noConfusion hd
        | ok d₂ =>
          simp only [h2] at hd
          rcases stage_bin_ok_cases absDir fs d₁ d₂ h2 with
            ⟨hnone, _⟩ | ⟨bins₀, bins', hsome, hmap, rfl⟩
          · rw [hfbin d₁ h1] at hnone
            exact Option.noConfusion hnone
          · rw [hfbin d₁ h1] at hsome
            obtain rfl : bins = bins₀ := by
              injection hsome with hs
              injection hs
            obtain ⟨y, hy, hf⟩ := mapExcept_get _ bins bins' hmap i (.table t) hent
            rw [rewrite_path_no_path absDir fs "[bin]" "src/main.rs" t hpath] at hf
            by_cases hfs : fs.contains "src/main.rs" = true
            · rw [if_pos hfs] at hf
              obtain rfl : y = .table (tblInsert t "path"
                  (.str (joinPath absDir "src/main.rs"))) := by
                injection hf with hf
                exact hf.symm
              refine ⟨bins', ?_, hy⟩
              rw [stage_deps_frame absDir exclude _ d hd "bin" (by decide)]
              exact tblLookup_insert_self d₁ "bin" _
            · rw [if_neg hfs] at hf
              exact Except.noConfusion hf

/-- Witness for `c9_rewrite_relative_paths_default_paths`: the manifest
`docNoPaths` whose `[lib]` section and single `[[bin]]` entry lack `path`
keys, with manifest directory `/w`; when both default files exist the
defaults are inserted, and when `src/lib.rs` is missing the rewrite fails
with the named error. -/
theorem c9_rewrite_relative_paths_default_paths_witness :
    (tblLookup docNoPaths "lib" = some (.table [("name", .str "adder")]) ∧
     rewrite_relative_paths "/w" ["src/lib.rs", "src/main.rs"] [] docNoPaths =
       .ok docNoPathsOut ∧
     tblLookup docNoPathsOut "lib" = some (.table (tblInsert
       [("name", .str "adder")] "path" (.str (joinPath "/w" "src/lib.rs"))))) ∧
    (∃ bins', tblLookup docNoPathsOut "bin" = some (.arr bins') ∧
      bins'.get? 0 = some (.table (tblInsert [("name", .str "cli")] "path"
        (.str (joinPath "/w" "src/main.rs"))))) ∧
    rewrite_relative_paths "/w" [] [] docNoPaths =
      .error "No path specified, and the default `src/lib.rs` was not found" :=
  ⟨⟨rfl, rfl,
    ((c9_rewrite_relative_paths_default_paths "/w" ["src/lib.rs", "src/main.rs"]
      [] docNoPaths).1 [("name", .str "adder")] rfl rfl).2 docNoPathsOut rfl⟩,
   ((c9_rewrite_relative_paths_default_paths "/w" ["src/lib.rs", "src/main.rs"]
      [] docNoPaths).2 [.table [("name", .str "cli")]] 0 [("name", .str "cli")]
      rfl rfl rfl).2 docNoPathsOut rfl,
   ((c9_rewrite_relative_paths_default_paths "/w" [] [] docNoPaths).1
      [("name", .str "adder")] rfl rfl).1 rfl⟩

/-- C6: for every contract manifest (with a package name and a `near-sdk`
dependency table), the driver-package manifest written by `Manifest::write`
via `generate_package` has a `contract` dependency whose `package` key is
the contract's package name, and a `near-sdk` dependency table equal to the
contract manifest's `near-sdk` table with exactly the keys
`default-features`, `features` and `optional` removed and every other key
preserved. -/
theorem c6_generate_package_driver_manifest
    (doc pt dt sdk : TomlTable) (name : String)
    (hpkg : tblLookup doc "package" = some (.table pt))
    (hname : tblLookup pt "name" = some (.str name))
    (hdt : tblLookup doc "dependencies" = some (.table dt))
    (hsdk : tblLookup dt "near-sdk" = some (.table sdk)) :
    ∃ out deps', write_driver_manifest doc = .ok out ∧
      tblLookup out "dependencies" = some (.table deps') ∧
      (∃ ct, tblLookup deps' "contract" = some (.table ct) ∧
        tblLookup ct "package" = some (.str name)) ∧
      tblLookup deps' "near-sdk" = some (.table
        (tblRemove (tblRemove (tblRemove sdk "default-features") "features")
          "optional")) ∧
      (∀ k, (k = "default-features" ∨ k = "features" ∨ k = "optional") →
        tblLookup (tblRemove (tblRemove (tblRemove sdk "default-features")
          "features") "optional") k = none) ∧
      (∀ k, ¬(k = "default-features" ∨ k = "features" ∨ k = "optional") →
        tblLookup (tblRemove (tblRemove (tblRemove sdk "default-features")
          "features") "optional") k = tblLookup sdk k) := by
  have hcn : contract_package_name_of doc = .ok name := by
    simp only [contract_package_name_of, hpkg, hname]
  have hns : near_sdk_dependency_of doc = .ok sdk := by
    simp only [near_sdk_dependency_of, hdt, hsdk]
  have hgen : generate_package name sdk = some
      [("package", .table [("name", .str "metadata-gen"), ("version", .str "0.1.0")]),
       ("dependencies", .table
         [("contract", .table [("path", .str "../.."), ("package", .str name)]),
          ("near-sdk", .table (tblRemove (tblRemove (tblRemove sdk
            "default-features") "features") "optional"))])] := rfl
  have hw : write_driver_manifest doc = .ok
      [("package", .table [("name", .str "metadata-gen"), ("version", .str "0.1.0")]),
       ("dependencies", .table
         [("contract", .table [("path", .str "../.."), ("package", .str name)]),
          ("near-sdk", .table (tblRemove (tblRemove (tblRemove sdk
            "default-features") "features") "optional"))])] := by
    simp only [write_driver_manifest, hcn, hns, hgen]
  refine ⟨_, _, hw, rfl, ⟨[("path", .str "../.."), ("package", .str name)], rfl, rfl⟩,
    rfl, ?_, ?_⟩
  · rintro k (rfl | rfl | rfl)
    · rw [tblLookup_remove_ne _ "optional" _ (by decide),
        tblLookup_remove_ne _ "features" _ (by decide), tblLookup_remove_self]
    · rw [tblLookup_remove_ne _ "optional" _ (by decide), tblLookup_remove_self]
    · rw [tblLookup_remove_self]
  · intro k hk
    simp only [not_or] at hk
    obtain ⟨h1, h2, h3⟩ := hk
    rw [tblLookup_remove_ne _ "optional" _ h3, tblLookup_remove_ne _ "features" _ h2,
      tblLookup_remove_ne _ "default-features" _ h1]

/-- Witness for `c6_generate_package_driver_manifest`: the concrete
contract manifest `docContract` (package `adder`, `near-sdk` dependency
`sdkDep`). -/
theorem c6_generate_package_driver_manifest_witness :
    (tblLookup docContract "package" = some (.table [("name", .str "adder")]) ∧
     tblLookup [("name", Toml.str "adder")] "name" = some (.str "adder") ∧
     tblLookup docContract "dependencies" =
       some (.table [("near-sdk", .table sdkDep)]) ∧
     tblLookup [("near-sdk", Toml.table sdkDep)] "near-sdk" =
       some (.table sdkDep)) ∧
    (∃ out deps', write_driver_manifest docContract = .ok out ∧
      tblLookup out "dependencies" = some (.table deps') ∧
      (∃ ct, tblLookup deps' "contract" = some (.table ct) ∧
        tblLookup ct "package" = some (.str "adder")) ∧
      tblLookup deps' "near-sdk" = some (.table
        (tblRemove (tblRemove (tblRemove sdkDep "default-features") "features")
          "optional")) ∧
      (∀ k, (k = "default-features" ∨ k = "features" ∨ k = "optional") →
        tblLookup (tblRemove (tblRemove (tblRemove sdkDep "default-features")
          "features") "optional") k = none) ∧
      (∀ k, ¬(k = "default-features" ∨ k = "features" ∨ k = "optional") →
        tblLookup (tblRemove (tblRemove (tblRemove sdkDep "default-features")
          "features") "optional") k = tblLookup sdkDep k)) :=
  ⟨⟨rfl, rfl, rfl, rfl⟩,
   c6_generate_package_driver_manifest docContract [("name", .str "adder")]
     [("near-sdk", .table sdkDep)] sdkDep "adder" rfl rfl rfl rfl⟩

theorem regIndex_append_some (l l' : List Ty) (t : Ty) (i : Nat)
    (h : regIndex l t = some i) : regIndex (l ++ l') t = some i := by
  induction l generalizing i with
  | nil => exact Option.noConfusion h
  | cons x xs ih =>
    rw [List.cons_append]
    simp only [regIndex] at h ⊢
    by_cases hx : x = t
    · rw [if_pos hx] at h ⊢
      exact h
    · rw [if_neg hx] at h ⊢
      cases hr : regIndex xs t with
      | none =>
        rw [hr] at h
        exact Option.noConfusion h
      | some j =>
        rw [hr] at h
        rw [ih j hr]
        exact h

theorem regIndex_get? (l : List Ty) (t : Ty) (i : Nat)
    (h : regIndex l t = some i) : l.get? i = some t := by
  induction l generalizing i with
  | nil => exact Option.noConfusion h
  | cons x xs ih =>
    simp only [regIndex] at h
    by_cases hx : x = t
    · rw [if_pos hx] at h
      obtain rfl : (0 : Nat) = i := by injection h
      simp [hx]
    · rw [if_neg hx] at h
      cases hr : regIndex xs t with
      | none =>
        rw [hr] at h
        exact Option.noConfusion h
      | some j =>
        rw [hr] at h
        obtain rfl : j + 1 = i := by injection h
        simp only [List.get?]
        exact ih j hr

theorem regIndex_isSome_of_mem (l : List Ty) (t : Ty) (h : t ∈ l) :
    ∃ i, regIndex l t = some i := by
  induction l with
  | nil => simp at h
  | cons x xs ih =>
    by_cases hx : x = t
    · exact ⟨0, by simp [regIndex, hx]⟩
    · have hxs : t ∈ xs := by
        rcases List.mem_cons.mp h with h' | h'
        · exact absurd h'.symm hx
        · exact h'
      obtain ⟨i, hi⟩ := ih hxs
      exact ⟨i + 1, by simp [regIndex, hx, hi]⟩

theorem regIndex_append_self (l : List Ty) (t : Ty) (h : t ∉ l) :
    regIndex (l ++ [t]) t = some l.length := by
  induction l with
  | nil => simp [regIndex]
  | cons x xs ih =>
    have hx : x ≠ t := fun he => h (he ▸ List.mem_cons_self x xs)
    have hxs : t ∉ xs := fun hm => h (List.mem_cons_of_mem x hm)
    rw [List.cons_append]
    simp only [regIndex, if_neg hx, ih hxs, List.length_cons]

theorem foldl_insFirst_prefix (ts : List Ty) (l : List Ty) :
    ∃ suffix, ts.foldl insFirst l = l ++ suffix := by
  induction ts generalizing l with
  | nil => exact ⟨[], by simp⟩
  | cons t ts ih =>
    simp only [List.foldl_cons]
    obtain ⟨s, hs⟩ := ih (insFirst l t)
    by_cases hm : t ∈ l
    · have he : insFirst l t = l := by rw [insFirst, if_pos hm]
      rw [he] at hs
      exact ⟨s, by rw [he]; exact hs⟩
    · have he : insFirst l t = l ++ [t] := by rw [insFirst, if_neg hm]
      rw [he] at hs
      exact ⟨[t] ++ s, by rw [he, hs, List.append_assoc]⟩

theorem register_type_types (r : TypeRegistry) (t : Ty) :
    (r.register_type t).2.types = insFirst r.types t ∧
    regIndex (r.register_type t).2.types t = some (r.register_type t).1 := by
  cases hr : regIndex r.types t with
  | some i =>
    have hm : t ∈ r.types := List.get?_mem (regIndex_get? _ _ _ hr)
    constructor
    · simp [TypeRegistry.register_type, hr, insFirst, hm]
    · simp [TypeRegistry.register_type, hr]
  | none =>
    have hm : t ∉ r.types := by
      intro hmem
      obtain ⟨i, hi⟩ := regIndex_isSome_of_mem _ _ hmem
      rw [hr] at hi
      exact Option.noConfusion hi
    constructor
    · simp [TypeRegistry.register_type, hr, insFirst, hm]
    · simp only [TypeRegistry.register_type, hr]
      exact regIndex_append_self r.types t hm

theorem runRegister_spec (ts : List Ty) (r : TypeRegistry) :
    ((runRegister r ts).2).types = ts.foldl insFirst r.types ∧
    ∀ i a, ts.get? i = some a →
      (runRegister r ts).1.get? i = regIndex ((runRegister r ts).2).types a := by
  induction ts generalizing r with
  | nil =>
    refine ⟨rfl, ?_⟩
    intro i a ha
    simp at ha
  | cons t ts ih =>
    obtain ⟨htypes, hidx⟩ := register_type_types r t
    obtain ⟨ih1, ih2⟩ := ih (r.register_type t).2
    constructor
    · simp only [runRegister]
      rw [ih1, htypes, List.foldl_cons]
    · intro i a ha
      cases i with
      | zero =>
        simp only [List.get?] at ha
        obtain rfl : t = a := by injection ha
        simp only [runRegister, List.get?]
        rw [ih1]
        obtain ⟨s, hs⟩ := foldl_insFirst_prefix ts (r.register_type t).2.types
        rw [hs]
        exact (regIndex_append_some _ s t _ hidx).symm
      | succ i =>
        simp only [List.get?] at ha
        simp only [runRegister, List.get?]
        exact ih2 i a ha

theorem registerParams_run (r : TypeRegistry) (args : List ArgInfo) :
    (registerParams r args).2 = (runRegister r (args.map ArgInfo.ty)).2 ∧
    (registerParams r args).1.map AbiParameter.type_id =
      (runRegister r (args.map ArgInfo.ty)).1 := by
  induction args generalizing r with
  | nil => exact ⟨rfl, rfl⟩
  | cons a as ih =>
    obtain ⟨ih1, ih2⟩ := ih (r.register_type a.ty).2
    constructor
    · simp only [registerParams, runRegister, List.map_cons]
      exact ih1
    · simp only [registerParams, runRegister, List.map_cons]
      rw [ih2]

theorem runRegister_append (r : TypeRegistry) (xs ys : List Ty) :
    (runRegister r (xs ++ ys)).2 = (runRegister (runRegister r xs).2 ys).2 ∧
    (runRegister r (xs ++ ys)).1 =
      (runRegister r xs).1 ++ (runRegister (runRegister r xs).2 ys).1 := by
  induction xs generalizing r with
  | nil => exact ⟨rfl, rfl⟩
  | cons x xs ih =>
    obtain ⟨ih1, ih2⟩ := ih (r.register_type x).2
    constructor
    · rw [List.cons_append]
      simp only [runRegister]
      exact ih1
    · rw [List.cons_append]
      simp only [runRegister]
      rw [ih2, List.cons_append]

theorem registerParams_snd (r : TypeRegistry) (args : List ArgInfo) :
    (registerParams r args).2 = (runRegister r (args.map ArgInfo.ty)).2 :=
  (registerParams_run r args).1

theorem registerParams_ids (r : TypeRegistry) (args : List ArgInfo) :
    (registerParams r args).1.map AbiParameter.type_id =
      (runRegister r (args.map ArgInfo.ty)).1 :=
  (registerParams_run r args).2

theorem runRegister_append_snd (r : TypeRegistry) (xs ys : List Ty) :
    (runRegister r (xs ++ ys)).2 = (runRegister (runRegister r xs).2 ys).2 :=
  (runRegister_append r xs ys).1

theorem runRegister_append_ids (r : TypeRegistry) (xs ys : List Ty) :
    (runRegister r (xs ++ ys)).1 =
      (runRegister r xs).1 ++ (runRegister (runRegister r xs).2 ys).1 :=
  (runRegister_append r xs ys).2

theorem metadata_struct_run (m : MethodInfo) (r : TypeRegistry)
    (res : Except String AbiFunction) (reg : TypeRegistry)
    (hms : metadata_struct m r = (res, reg)) :
    reg = (runRegister r (registeredTypes m)).2 ∧
    ((callback_vec_args m).length ≤ 1 →
      ∃ f, res = .ok f ∧
        abiFunctionIds f = (runRegister r (registeredTypes m)).1) ∧
    ((callback_vec_args m).length > 1 →
      res = .error "A function can only have one #[callback_vec] parameter.") := by
  by_cases hlen : (callback_vec_args m).length > 1
  · have hRT : registeredTypes m =
        m.input_args.map ArgInfo.ty ++ (callback_args m).map ArgInfo.ty := by
      simp only [registeredTypes]
      rw [if_pos hlen]
      simp
    simp only [metadata_struct, if_pos hlen, Prod.mk.injEq] at hms
    obtain ⟨h1, h2⟩ := hms
    subst h1
    subst h2
    refine ⟨?_, ?_, ?_⟩
    · rw [hRT]
      simp only [runRegister_append_snd, registerParams_snd]
    · intro hle
      exact absurd hlen (by omega)
    · intro _
      rfl
  · cases hcv : callback_vec_args m with
    | nil =>
      have hlast : (callback_vec_args m).getLast? = none := by rw [hcv]; rfl
      cases hret : m.returns with
      | none =>
        have hRT : registeredTypes m =
            m.input_args.map ArgInfo.ty ++ (callback_args m).map ArgInfo.ty := by
          simp only [registeredTypes]
          rw [if_neg hlen]
          simp [hcv, hret]
        simp only [metadata_struct, if_neg hlen, hlast, hret, Prod.mk.injEq] at hms
        obtain ⟨h1, h2⟩ := hms
        subst h1
        subst h2
        refine ⟨?_, ?_, ?_⟩
        · rw [hRT]
          simp only [runRegister_append_snd, registerParams_snd]
        · intro _
          refine ⟨_, rfl, ?_⟩
          rw [hRT]
          simp only [abiFunctionIds, runRegister_append_ids, runRegister_append_snd,
            registerParams_ids, registerParams_snd, runRegister]
          simp [List.append_assoc]
        · intro hgt
          simp at hgt
      | some ty =>
        have hRT : registeredTypes m =
            m.input_args.map ArgInfo.ty ++ (callback_args m).map ArgInfo.ty
              ++ [ty] := by
          simp only [registeredTypes]
          rw [if_neg hlen]
          simp [hcv, hret]
        simp only [metadata_struct, if_neg hlen, hlast, hret, Prod.mk.injEq] at hms
        obtain ⟨h1, h2⟩ := hms
        subst h1
        subst h2
        refine ⟨?_, ?_, ?_⟩
        · rw [hRT]
          simp only [runRegister_append_snd, registerParams_snd, runRegister]
        · intro _
          refine ⟨_, rfl, ?_⟩
          rw [hRT]
          simp only [abiFunctionIds, runRegister_append_ids, runRegister_append_snd,
            registerParams_ids, registerParams_snd, runRegister]
          simp [List.append_assoc]
        · intro hgt
          simp at hgt
    | cons a rest =>
      have hrest : rest = [] := by
        cases rest with
        | nil => rfl
        | cons b bs =>
          rw [hcv] at hlen
          exact absurd (by simp) hlen
      subst hrest
      have hlast : (callback_vec_args m).getLast? = some a := by rw [hcv]; rfl
      cases hret : m.returns with
      | none =>
        have hRT : registeredTypes m =
            m.input_args.map ArgInfo.ty ++ (callback_args m).map ArgInfo.ty
              ++ [a.ty] := by
          simp only [registeredTypes]
          rw [if_neg hlen]
          simp [hcv, hret]
        simp only [metadata_struct, if_neg hlen, hlast, hret, Prod.mk.injEq] at hms
        obtain ⟨h1, h2⟩ := hms
        subst h1
        subst h2
        refine ⟨?_, ?_, ?_⟩
        · rw [hRT]
          simp only [runRegister_append_snd, registerParams_snd, runRegister]
        · intro _
          refine ⟨_, rfl, ?_⟩
          rw [hRT]
          simp only [abiFunctionIds, runRegister_append_ids, runRegister_append_snd,
            registerParams_ids, registerParams_snd, runRegister]
          simp [List.append_assoc]
        · intro hgt
          simp at hgt
      | some ty =>
        have hRT : registeredTypes m =
            m.input_args.map ArgInfo.ty ++ (callback_args m).map ArgInfo.ty
              ++ [a.ty, ty] := by
          simp only [registeredTypes]
          rw [if_neg hlen]
          simp [hcv, hret]
        simp only [metadata_struct, if_neg hlen, hlast, hret, Prod.mk.injEq] at hms
        obtain ⟨h1, h2⟩ := hms
        subst h1
        subst h2
        refine ⟨?_, ?_, ?_⟩
        · rw [hRT]
          simp only [runRegister_append_snd, registerParams_snd, runRegister]
        · intro _
          refine ⟨_, rfl, ?_⟩
          rw [hRT]
          simp only [abiFunctionIds, runRegister_append_ids, runRegister_append_snd,
            registerParams_ids, registerParams_snd, runRegister]
          simp [List.append_assoc]
        · intro hgt
          simp at hgt

theorem generateMetadata_run (fns : List MethodInfo) (r : TypeRegistry) :
    (generateMetadata r fns).2 = (runRegister r (traversalOf fns)).2 ∧
    ((∀ m ∈ fns, (callback_vec_args m).length ≤ 1) →
      collectIds (generateMetadata r fns).1 = (runRegister r (traversalOf fns)).1) := by
  induction fns generalizing r with
  | nil => exact ⟨rfl, fun _ => rfl⟩
  | cons m ms ih =>
    obtain ⟨hreg, hok, _⟩ :=
      metadata_struct_run m r (metadata_struct m r).1 (metadata_struct m r).2 rfl
    obtain ⟨ih1, ih2⟩ := ih (metadata_struct m r).2
    constructor
    · simp only [generateMetadata, traversalOf]
      rw [ih1, hreg, runRegister_append_snd]
    · intro hwf
      obtain ⟨f, hf, hids⟩ := hok (hwf m (List.mem_cons_self m ms))
      simp only [generateMetadata, traversalOf, hf, collectIds]
      rw [hids, ih2 (fun m' hm' => hwf m' (List.mem_cons_of_mem m hm')),
        runRegister_append_ids, hreg]

/-- C1: for the sequence of type registrations performed with one
`TypeRegistry` during a single generation pass, `register_type` returns the
same id for two structurally identical types and distinct ids for two
structurally distinct types (conjunct 3), assigns ids in first-encounter
order starting at 0 — each registration's id is the index of its type in
the deduplicated first-encounter list (conjuncts 1 and 2) — and the
generation pass performs exactly the traversal: functions in declaration
order, then each function's parameters, callbacks, callback-vector
parameter, then result type (conjuncts 4 and 5). -/
theorem c1_type_registry_ids (fns : List MethodInfo) :
    ((runRegister emptyRegistry (traversalOf fns)).2).types =
      dedupFirst (traversalOf fns) ∧
    (∀ i a, (traversalOf fns).get? i = some a →
      (runRegister emptyRegistry (traversalOf fns)).1.get? i =
        regIndex (dedupFirst (traversalOf fns)) a) ∧
    (∀ i j a b ia ib, (traversalOf fns).get? i = some a →
      (traversalOf fns).get? j = some b →
      (runRegister emptyRegistry (traversalOf fns)).1.get? i = some ia →
      (runRegister emptyRegistry (traversalOf fns)).1.get? j = some ib →
      (ia = ib ↔ a = b)) ∧
    (generateMetadata emptyRegistry fns).2 =
      (runRegister emptyRegistry (traversalOf fns)).2 ∧
    ((∀ m ∈ fns, (callback_vec_args m).length ≤ 1) →
      collectIds (generateMetadata emptyRegistry fns).1 =
        (runRegister emptyRegistry (traversalOf fns)).1) := by
  obtain ⟨htypes, hpt⟩ := runRegister_spec (traversalOf fns) emptyRegistry
  have hded : ((runRegister emptyRegistry (traversalOf fns)).2).types =
      dedupFirst (traversalOf fns) := htypes
  have hpt' : ∀ i a, (traversalOf fns).get? i = some a →
      (runRegister emptyRegistry (traversalOf fns)).1.get? i =
        regIndex (dedupFirst (traversalOf fns)) a := by
    intro i a ha
    rw [← hded]
    exact hpt i a ha
  refine ⟨hded, hpt', ?_, (generateMetadata_run fns emptyRegistry).1,
    (generateMetadata_run fns emptyRegistry).2⟩
  intro i j a b ia ib ha hb hia hib
  have hia' := hpt' i a ha
  have hib' := hpt' j b hb
  rw [hia] at hia'
  rw [hib] at hib'
  constructor
  · intro he
    subst he
    have hga := regIndex_get? _ a ia hia'.symm
    have hgb := regIndex_get? _ b ia hib'.symm
    rw [hga] at hgb
    injection hgb
  · intro he
    subst he
    rw [← hia'] at hib'
    injection hib' with hv
    exact hv.symm

/-- Witness for `c1_type_registry_ids`: the two concrete methods `fnsDup`
sharing the structural parameter type `Pair(u32,u32)`; the first and third
registrations are the same structural type and receive the same id `0`,
and the pass's collected ids match the traversal's. -/
theorem c1_type_registry_ids_witness :
    ((traversalOf fnsDup).get? 0 = some (.pair .u32 .u32) ∧
     (traversalOf fnsDup).get? 2 = some (.pair .u32 .u32) ∧
     (∀ m ∈ fnsDup, (callback_vec_args m).length ≤ 1)) ∧
    ((runRegister emptyRegistry (traversalOf fnsDup)).1.get? 0 =
       regIndex (dedupFirst (traversalOf fnsDup)) (.pair .u32 .u32) ∧
     (runRegister emptyRegistry (traversalOf fnsDup)).1.get? 2 =
       regIndex (dedupFirst (traversalOf fnsDup)) (.pair .u32 .u32) ∧
     collectIds (generateMetadata emptyRegistry fnsDup).1 =
       (runRegister emptyRegistry (traversalOf fnsDup)).1) :=
  ⟨⟨rfl, rfl, by decide⟩,
   (c1_type_registry_ids fnsDup).2.1 0 (.pair .u32 .u32) rfl,
   (c1_type_registry_ids fnsDup).2.1 2 (.pair .u32 .u32) rfl,
   (c1_type_registry_ids fnsDup).2.2.2.2 (by decide)⟩

/-- C3 (amended): a contract method whose argument list carries more than
one callback-vector-tagged parameter makes metadata generation fail with
the build-time compile error "A function can only have one #[callback_vec]
parameter." (which does not name the function), and no `AbiFunction`
record is produced for that function. -/
theorem c3_callback_vec_error (m : MethodInfo) (r : TypeRegistry)
    (h : (callback_vec_args m).length > 1) :
    (metadata_struct m r).1 =
      .error "A function can only have one #[callback_vec] parameter." ∧
    ∀ f, (metadata_struct m r).1 ≠ .ok f := by
  obtain ⟨_, _, herr⟩ :=
    metadata_struct_run m r (metadata_struct m r).1 (metadata_struct m r).2 rfl
  have he := herr h
  refine ⟨he, ?_⟩
  intro f hf
  rw [he] at hf
  exact Except.noConfusion hf

/-- Witness for `c3_callback_vec_error`: the concrete method `mTwoVec`
(named `transfer`) with two callback-vector parameters. -/
theorem c3_callback_vec_error_witness :
    (callback_vec_args mTwoVec).length > 1 ∧
    ((metadata_struct mTwoVec emptyRegistry).1 =
      .error "A function can only have one #[callback_vec] parameter." ∧
     ∀ f, (metadata_struct mTwoVec emptyRegistry).1 ≠ .ok f) :=
  ⟨by decide, c3_callback_vec_error mTwoVec emptyRegistry (by decide)⟩

/-- C3 counterexample: the claim says the build-time error names the
function; for the concrete method `transfer` with two callback-vector
parameters the emitted error message is the fixed string "A function can
only have one #[callback_vec] parameter.", which does not contain the
function's name. -/
theorem c3_error_does_not_name_function :
    (metadata_struct mTwoVec emptyRegistry).1 =
      .error "A function can only have one #[callback_vec] parameter." ∧
    mTwoVec.ident = "transfer" ∧
    containsSubstring "A function can only have one #[callback_vec] parameter."
      "transfer" = false :=
  ⟨rfl, rfl, rfl⟩

/-- C2: for a crate whose package metadata is name `adder`, version
`0.1.0`, authors `["a"]`, and a driver process that emits the JSON
`{"functions":[],"types":[]}` on stdout, the merge step
(`execute` / `ContractMetadata::new`) produces an artifact whose metainfo
is exactly `{name: adder, version: 0.1.0, authors: [a]}`, whose function
and type lists are empty, and whose declared schema version is the tool's
constant. -/
theorem c2_merge_adder_empty_abi :
    merge_step ⟨"adder", "0.1.0", ["a"]⟩
      (.obj [("functions", .arr []), ("types", .arr [])]) =
      some ⟨ABI_SCHEMA_VERSION, ⟨"adder", "0.1.0", ["a"]⟩, ⟨[], []⟩⟩ := rfl

/-- C10: JSON serialization of a `MethodMetadata` emits only the fields
`name`, `is_view` and `is_init` (the `#[serde(skip)]` fields `args`,
`callbacks`, `callbacks_vec`, `result` are never emitted), the driver's
stdout (`serializeMetadata`) therefore carries only those keys for every
method, and deserializing any JSON that parses as a `MethodMetadata`
yields `args = none`, `callbacks = []`, `callbacks_vec = none`,
`result = none`. -/
theorem c10_method_metadata_serde (md : Metadata) (m : MethodMetadata) :
    jsonKeys (serializeMethodMetadata m) = ["name", "is_view", "is_init"] ∧
    deserializeMethodMetadata (serializeMethodMetadata m) =
      some ⟨m.name, m.is_view, m.is_init, none, [], none, none⟩ ∧
    serializeMetadata md =
      .obj [("version", .arr [.num md.version.1, .num md.version.2.1,
              .num md.version.2.2]),
            ("methods", .arr (md.methods.map serializeMethodMetadata))] ∧
    (∀ j, j ∈ md.methods.map serializeMethodMetadata →
      jsonKeys j = ["name", "is_view", "is_init"]) ∧
    (∀ j m', deserializeMethodMetadata j = some m' →
      m'.args = none ∧ m'.callbacks = [] ∧ m'.callbacks_vec = none ∧
        m'.result = none) := by
  refine ⟨rfl, rfl, rfl, ?_, ?_⟩
  · intro j hj
    obtain ⟨m', _, rfl⟩ := List.mem_map.mp hj
    rfl
  · intro j m' h
    cases j with
    | obj fields =>
      simp only [deserializeMethodMetadata] at h
      split at h
      · injection h with h
        subst h
        exact ⟨rfl, rfl, rfl, rfl⟩
      · exact Option.noConfusion h
    | str s => exact Option.noConfusion h
    | num n => exact Option.noConfusion h
    | bool b => exact Option.noConfusion h
    | null => exact Option.noConfusion h
    | arr l => exact Option.noConfusion h

/-- Witness for `c10_method_metadata_serde`: a concrete method whose
skipped fields are populated; its serialization carries only the three
fields and round-trips to the defaulted record. -/
theorem c10_method_metadata_serde_witness :
    jsonKeys (serializeMethodMetadata
      ⟨"add", true, false, some ⟨"args-schema"⟩, [⟨"cb"⟩], some ⟨"cbv"⟩,
       some ⟨"res"⟩⟩) = ["name", "is_view", "is_init"] ∧
    deserializeMethodMetadata (serializeMethodMetadata
      ⟨"add", true, false, some ⟨"args-schema"⟩, [⟨"cb"⟩], some ⟨"cbv"⟩,
       some ⟨"res"⟩⟩) = some ⟨"add", true, false, none, [], none, none⟩ ∧
    (deserializeMethodMetadata (.obj [("name", .str "add"),
        ("is_view", .bool true), ("is_init", .bool false)]) =
      some ⟨"add", true, false, none, [], none, none⟩ →
      (⟨"add", true, false, none, [], none, none⟩ : MethodMetadata).args = none) :=
  ⟨(c10_method_metadata_serde ⟨(0, 1, 0), []⟩
      ⟨"add", true, false, some ⟨"args-schema"⟩, [⟨"cb"⟩], some ⟨"cbv"⟩,
       some ⟨"res"⟩⟩).1,
   (c10_method_metadata_serde ⟨(0, 1, 0), []⟩
      ⟨"add", true, false, some ⟨"args-schema"⟩, [⟨"cb"⟩], some ⟨"cbv"⟩,
       some ⟨"res"⟩⟩).2.1,
   fun h => ((c10_method_metadata_serde ⟨(0, 1, 0), []⟩
      ⟨"add", true, false, some ⟨"args-schema"⟩, [⟨"cb"⟩], some ⟨"cbv"⟩,
       some ⟨"res"⟩⟩).2.2.2.2 _ _ h).1⟩
